import Mathlib

/-!
Verification of the hyperlint reconciliation engine.

This file is a shallow embedding, in Lean 4, of the core of
`src/hyperlint/editors/core.py` (issue model, compression, approval
gating, and the `generate_v2` reconciliation algorithm), of the
protected-region detector of `src/hyperlint/utils.py` (`MDXParser`),
and of the Vale issue collector of `src/hyperlint/editors/vale.py`
(`ValeEditor.collect_issues`), together with proofs about them.

Python strings are modelled as Lean `String`s, with the Python string
operations re-implemented structurally over the underlying character
list (so that every definition evaluates by `rfl`/`decide`).  Python
`dict[int, str]` values (the line lookup and the `changes` map) are
modelled as association lists with Python-dict semantics: updating an
existing key keeps its position, a new key is appended at the end.
The interactive approval prompt and the AI resolver are modelled as
oracle functions passed in as parameters; exceptions escaping a call
are modelled with `Except`.
-/

namespace Hyperlint

/-! ### Python string primitives (over the character list) -/

/-- Python `str.split("\n")`: the lines of the document, modelled with
`List.splitOn` on the character data. -/
def splitLines (s : String) : List String :=
  (s.data.splitOn '\n').map String.mk

/-- Python `"\n".join(lines)`. -/
def joinLines (ls : List String) : String :=
  String.mk (List.intercalate ['\n'] (ls.map String.data))

/-- Python `str.lstrip()` (strip leading whitespace). -/
def pyLstrip (s : String) : String :=
  String.mk (s.data.dropWhile Char.isWhitespace)

/-- Python `str.strip()` (strip whitespace at both ends). -/
def pyStrip (s : String) : String :=
  String.mk (((s.data.dropWhile Char.isWhitespace).reverse.dropWhile Char.isWhitespace).reverse)

/-- Python `s.startswith(p)`. -/
def pyStartsWith (s p : String) : Bool :=
  p.data.isPrefixOf s.data

/-- Python `s.endswith(p)`. -/
def pyEndsWith (s p : String) : Bool :=
  p.data.reverse.isPrefixOf s.data.reverse

/-- Python `p in s` (substring containment), used for `re.search` of a
literal pattern. -/
def pyContainsSub (pat : List Char) : List Char → Bool
  | [] => pat.isEmpty
  | c :: cs => pat.isPrefixOf (c :: cs) || pyContainsSub pat cs

/-- Python `s.count(c)` for a single character. -/
def pyCountChar (s : String) (c : Char) : Nat :=
  s.data.count c

/-- Python `c in s` for a single character. -/
def pyHasChar (s : String) (c : Char) : Bool :=
  s.data.contains c

/-! ### Association lists with Python-dict semantics -/

/-- Lookup in a `dict[int, str]`: `d.get(n)` / `d[n]` (the latter raises
`KeyError` when this returns `none`). -/
def lkGet (lk : List (Nat × String)) (n : Nat) : Option String :=
  (lk.find? (fun p => p.1 == n)).map (·.2)

/-- Membership test `n in d`. -/
def lkHas (lk : List (Nat × String)) (n : Nat) : Bool :=
  lk.any (fun p => p.1 == n)

/-- Assignment `d[n] = v`: an existing key keeps its position, a new key
is appended at the end, exactly as in a Python dict. -/
def lkSet (lk : List (Nat × String)) (n : Nat) (v : String) : List (Nat × String) :=
  if lkHas lk n then lk.map (fun p => if p.1 == n then (n, v) else p)
  else lk ++ [(n, v)]

/-- The key order used by `sorted(d.items())`. -/
def keyLE (p q : Nat × String) : Prop := p.1 ≤ q.1

/-- Strict key order, used to state that lookups have strictly
increasing keys. -/
def keyLT (p q : Nat × String) : Prop := p.1 < q.1

instance : DecidableRel keyLE := fun p q => Nat.decLe p.1 q.1

instance : IsTotal (Nat × String) keyLE := ⟨fun a b => Nat.le_total a.1 b.1⟩

instance : IsTrans (Nat × String) keyLE := ⟨fun _ _ _ h₁ h₂ => Nat.le_trans h₁ h₂⟩

instance : IsAntisymm (Nat × String) keyLT :=
  ⟨fun _ _ h₁ h₂ => absurd (Nat.lt_trans h₁ h₂) (Nat.lt_irrefl _)⟩

/-- Python `sorted(d.items())`: sort the key-value pairs by key. -/
def sortByKey (l : List (Nat × String)) : List (Nat × String) :=
  List.insertionSort keyLE l

/-! ### The issue model (`core.py`) -/

/-- `config.DELETE_LINE_MESSAGE`, the delete sentinel. -/
def DELETE_LINE_MESSAGE : String := ">>>>>>>>>>>>>>DELETE<<<<<<<<<<<<<<<"

/-- `LineIssue` (line number plus messages), as produced by Vale. -/
structure LineIssue where
  line : Nat
  issue_message : List String
deriving DecidableEq, Repr

/-- `ReplaceLineFixableIssue`. -/
structure ReplaceLineFixableIssue where
  line : Nat
  issue_message : List String
  existing_content : String
deriving DecidableEq, Repr

/-- `InsertLineIssue`. -/
structure InsertLineIssue where
  line : Nat
  insert_content : String
deriving DecidableEq, Repr

/-- `DeleteLineIssue`. -/
structure DeleteLineIssue where
  line : Nat
  issue_message : List String
  existing_content : String
deriving DecidableEq, Repr

/-- The closed union of issue kinds, as passed to `_approval_filter`
and `log_approval_decision`. -/
inductive Issue where
  | replace : ReplaceLineFixableIssue → Issue
  | insert : InsertLineIssue → Issue
  | delete : DeleteLineIssue → Issue
deriving DecidableEq, Repr

/-- `get_issue_type` from `core.py`. -/
def get_issue_type : Issue → String
  | .replace _ => "replacement"
  | .insert _ => "insertion"
  | .delete _ => "deletion"

/-- `ReplaceLineFixableIssue.fix`: the body of the `try` block calls the
AI resolver; its outcome (normal return of the `replacement_content`, or
any raised exception) is the `Except` argument.  On success the original
leading whitespace of the line is re-applied; on any exception the original
`existing_content` is returned unchanged. -/
def ReplaceLineFixableIssue.fix (issue : ReplaceLineFixableIssue)
    (resolverOutcome : Except String String) : String :=
  match resolverOutcome with
  | .error _ => issue.existing_content
  | .ok replacement_content =>
      String.mk (List.replicate
          (issue.existing_content.data.length - (pyLstrip issue.existing_content).data.length) ' ')
        ++ pyLstrip replacement_content

/-- `DeleteLineIssue.fix` always returns the delete sentinel. -/
def DeleteLineIssue.fix (_issue : DeleteLineIssue) : String :=
  DELETE_LINE_MESSAGE

/-! ### The decision log (`log_approval_decision` in `core.py`) -/

/-- A JSON value as written into one `changes.jsonl` record. -/
inductive LogValue where
  | str : String → LogValue
  | optStr : Option String → LogValue
  | boolean : Bool → LogValue
  | nat : Nat → LogValue
  | strList : List String → LogValue
deriving DecidableEq, Repr

/-- The line number of an issue. -/
def Issue.lineOf : Issue → Nat
  | .replace r => r.line
  | .insert i => i.line
  | .delete d => d.line

/-- The key-value record built by `log_approval_decision` (the
`log_entry` dict, in insertion order): the common fields `timestamp`,
`file`, `issue_type`, `line`, `approved`, followed by the
kind-specific fields added by the `isinstance` branches. -/
def log_approval_decision_entry (timestamp file_path : String)
    (issue : Issue) (approved : Bool) (fix : Option String) :
    List (String × LogValue) :=
  [("timestamp", .str timestamp),
   ("file", .str file_path),
   ("issue_type", .str (get_issue_type issue)),
   ("line", .nat issue.lineOf),
   ("approved", .boolean approved)] ++
  (match issue with
   | .replace r =>
       [("issue_message", .strList r.issue_message),
        ("content_before", .str r.existing_content),
        ("content_after", .optStr fix)]
   | .insert i => [("content_after", .str i.insert_content)]
   | .delete d => [("issue_message", .strList d.issue_message)])

/-- The attribute names defined by `SimpleConfig` (`config.py`: the
declared fields and the methods of the class).  A pydantic model raises
`AttributeError` on any other attribute access; note that the class
defines `ensure_storage_dirs` (plural) and no `ensure_storage_dir`. -/
def simpleConfigAttrs : List String :=
  ["vale", "custom_rules", "dry_run", "approval_mode", "approval_type",
   "hyperlint_dir", "enabled_editors", "from_yaml", "merge_with_cli",
   "get_storage_data_dir", "get_judge_data_dir", "ensure_storage_dirs"]

/-- Attribute lookup on a `SimpleConfig` value: defined attributes
resolve, anything else raises `AttributeError`. -/
def configGetattr (name : String) : Except String Unit :=
  if name ∈ simpleConfigAttrs then .ok ()
  else .error ("AttributeError: " ++ name)

/-- `log_approval_decision`, modelled end to end over an explicit log
(the list of `changes.jsonl` records): build the `log_entry` dict, then
run `config.ensure_storage_dir()` and `config.get_judge_data_dir()`
(attribute lookups on the config object), then append the entry as one
record (`f.write(json.dumps(log_entry) + "\n")` on a file opened in
append mode).  The result is the grown log, or the uncaught exception
raised by a failed attribute lookup. -/
def log_approval_decision (timestamp file_path : String) (issue : Issue)
    (approved : Bool) (fix : Option String)
    (log : List (List (String × LogValue))) :
    Except String (List (List (String × LogValue))) :=
  let log_entry := log_approval_decision_entry timestamp file_path issue approved fix
  match configGetattr "ensure_storage_dir" with
  | .error e => .error e
  | .ok _ =>
      match configGetattr "get_judge_data_dir" with
      | .error e => .error e
      | .ok _ => .ok (log ++ [log_entry])

/-! ### The approval gate -/

/-- The approval-gate oracle: the boolean returned by
`_approval_filter(issue, proposed_fix)` for each consulted decision. -/
abbrev Approver := Issue → String → Bool

/-- The resolver oracle: the string returned by
`deduped_issue.fix(context)` inside `generate_v2` (total, because
`ReplaceLineFixableIssue.fix` catches every exception). -/
abbrev Resolver := ReplaceLineFixableIssue → String → String

/-- The policy structure of `_approval_filter`: dry-run auto-approves,
disabled approval mode auto-approves, otherwise the interactive prompt
(the `prompt` oracle) decides. -/
def approval_filter_of (dry_run approval_mode : Bool) (prompt : Approver) : Approver :=
  fun issue proposed_fix =>
    if dry_run then true
    else if !approval_mode then true
    else prompt issue proposed_fix

/-! ### Compression (`_compress_issues`) -/

/-- One value of the `compressed_issues` dict: the per-line group of
replace issues, split as first-registered issue plus the rest in
registration order. -/
structure IssueGroup where
  line : Nat
  first : ReplaceLineFixableIssue
  rest : List ReplaceLineFixableIssue
deriving DecidableEq, Repr

/-- One step of the `_compress_issues` loop: append the issue to its
group of its line if present, otherwise append a fresh group (Python dicts
keep keys in first-insertion order). -/
def addToGroups (gs : List IssueGroup) (i : ReplaceLineFixableIssue) : List IssueGroup :=
  if gs.any (fun g => g.line == i.line) then
    gs.map (fun g => if g.line == i.line then { g with rest := g.rest ++ [i] } else g)
  else gs ++ [{ line := i.line, first := i, rest := [] }]

/-- `_compress_issues`: group the registered replace issues by line
number, keys in first-occurrence order. -/
def compress_issues (rs : List ReplaceLineFixableIssue) : List IssueGroup :=
  rs.foldl addToGroups []

/-- The merged issue built at the top of the per-line loop of
`generate_v2`: the first issue of the group with its `issue_message`
replaced by the deduplicated union of the messages of the group
(`list(set(...))`; the iteration order of a Python set is arbitrary, so
any order with the same members models it). -/
def mkDeduped (g : IssueGroup) : ReplaceLineFixableIssue :=
  { g.first with issue_message := (((g.first :: g.rest).map (·.issue_message)).flatten).dedup }

/-! ### Line lookup and context windows -/

/-- `get_line_number_lookup`: 1-indexed line lookup of the text. -/
def get_line_number_lookup (text : String) : List (Nat × String) :=
  List.enumFrom 1 (splitLines text)

/-- `_get_surrounding_lines`: the lines numbered
`max(1, n - count) .. n + count` that exist in the lookup, each rendered
as `"<number>: <content>"`. -/
def get_surrounding_lines (line_number line_count : Nat)
    (line_lookup : List (Nat × String)) : List String :=
  (List.range' (max 1 (line_number - line_count))
      ((line_number + line_count + 1) - max 1 (line_number - line_count))).filterMap
    (fun m => (lkGet line_lookup m).map (fun c => toString m ++ ": " ++ c))

/-- The context string passed to the resolver inside `generate_v2`:
the 5 surrounding lines joined with newlines. -/
def buildContext (n : Nat) (lk : List (Nat × String)) : String :=
  joinLines (get_surrounding_lines n 5 lk)

/-! ### The reconciliation engine (`generate_v2`) -/

/-- Result of the per-line replacement loop of `generate_v2`: the
mutated `initial_line_lookup`, the `changes` dict, and (for the
analysis) the trace of resolver calls, one `(merged issue, context)`
pair per processed group in processing order. -/
structure ReplacePhaseResult where
  lookup : List (Nat × String)
  changes : List (Nat × String)
  calls : List (ReplaceLineFixableIssue × String)
deriving DecidableEq, Repr

/-- The per-line replacement loop of `generate_v2` (`for line_no,
line_issues in compressed_issues.items()`): merge the group, build the
context window from the current lookup, call the resolver, consult the
gate; when approved and the fix differs from the current lookup entry,
record the change and update the lookup in place.  An approved fix for
a line absent from the lookup raises `KeyError` (`.error line`), since
the code indexes `initial_line_lookup[line_no]` unguarded. -/
def processReplacements (resolver : Resolver) (approve : Approver) :
    List IssueGroup → List (Nat × String) → List (Nat × String) →
    List (ReplaceLineFixableIssue × String) → Except Nat ReplacePhaseResult
  | [], lk, ch, calls => .ok ⟨lk, ch, calls⟩
  | g :: gs, lk, ch, calls =>
      let deduped_issue := mkDeduped g
      let context := buildContext g.line lk
      let proposed_fix := resolver deduped_issue context
      let approved := approve (.replace deduped_issue) proposed_fix
      let calls' := calls ++ [(deduped_issue, context)]
      if approved then
        match lkGet lk g.line with
        | none => .error g.line
        | some current =>
            if proposed_fix = current then
              processReplacements resolver approve gs lk ch calls'
            else
              processReplacements resolver approve gs
                (lkSet lk g.line proposed_fix) (lkSet ch g.line proposed_fix) calls'
      else processReplacements resolver approve gs lk ch calls'

/-- The deletion loop of `generate_v2`: gate each registered delete
issue with the literal proposed fix `"TO DELETE"`; when approved, mark
both `changes` and the lookup with the delete sentinel. -/
def processDeletions (approve : Approver) :
    List DeleteLineIssue → List (Nat × String) → List (Nat × String) →
    List (Nat × String) × List (Nat × String)
  | [], lk, ch => (lk, ch)
  | d :: ds, lk, ch =>
      if approve (.delete d) "TO DELETE" then
        processDeletions approve ds
          (lkSet lk d.line DELETE_LINE_MESSAGE) (lkSet ch d.line DELETE_LINE_MESSAGE)
      else processDeletions approve ds lk ch

/-- `sorted(self.insertions, key=lambda x: x.line)` (a stable sort). -/
def sortInsertions (ins : List InsertLineIssue) : List InsertLineIssue :=
  List.insertionSort (fun a b => a.line ≤ b.line) ins

/-- Gate a run of insertions in order, keeping the approved contents,
each tagged `none` (not an original document line). -/
def gateInsertions (approve : Approver) (ins : List InsertLineIssue) :
    List (Option Nat × String) :=
  ins.filterMap (fun i =>
    if approve (.insert i) i.insert_content then some (none, i.insert_content) else none)

/-- The final assembly loop of `generate_v2`: walk the sorted lookup
items; before each line emit the pending insertions whose target equals
that exact line number (gated); then emit the changed content unless it
is the delete sentinel, or the lookup content when unchanged; after the
loop flush all remaining insertions (gated).  Each emitted line is
tagged with the original line number it was emitted for (`none` for
insertions). -/
def emitLoop (approve : Approver) (ch : List (Nat × String)) :
    List (Nat × String) → List InsertLineIssue → List (Option Nat × String)
  | [], ins => gateInsertions approve ins
  | (n, content) :: rest, ins =>
      gateInsertions approve (ins.takeWhile (fun i => i.line == n)) ++
      (match lkGet ch n with
       | some c => if c = DELETE_LINE_MESSAGE then [] else [(some n, c)]
       | none => [(some n, content)]) ++
      emitLoop approve ch rest (ins.dropWhile (fun i => i.line == n))

/-- The instrumented result of `generate_v2`: the tagged emitted lines,
the untagged `final_lines`, the final `changes` dict, and the resolver
call trace. -/
structure GenerateResult where
  emitted : List (Option Nat × String)
  final_lines : List String
  changes : List (Nat × String)
  calls : List (ReplaceLineFixableIssue × String)
deriving DecidableEq, Repr

/-- `generate_v2`, instrumented: compress the registered replacements,
run the replacement loop over the line lookup snapshot, run the
deletion loop, then assemble the final lines against the sorted lookup
and the sorted insertions.  `.error n` models the uncaught `KeyError`
on line `n`. -/
def generateV2Full (resolver : Resolver) (approve : Approver) (text : String)
    (replacements : List ReplaceLineFixableIssue) (insertions : List InsertLineIssue)
    (deletions : List DeleteLineIssue) : Except Nat GenerateResult :=
  match processReplacements resolver approve (compress_issues replacements)
      (get_line_number_lookup text) [] [] with
  | .error n => .error n
  | .ok r =>
      let afterDel := processDeletions approve deletions r.lookup r.changes
      let emitted := emitLoop approve afterDel.2 (sortByKey afterDel.1)
        (sortInsertions insertions)
      .ok ⟨emitted, emitted.map (·.2), afterDel.2, r.calls⟩

/-- `generate_v2`: the final text, `"\n".join(final_lines)`. -/
def generate_v2 (resolver : Resolver) (approve : Approver) (text : String)
    (replacements : List ReplaceLineFixableIssue) (insertions : List InsertLineIssue)
    (deletions : List DeleteLineIssue) : Except Nat String :=
  (generateV2Full resolver approve text replacements insertions deletions).map
    (fun r => joinLines r.final_lines)

/-! ### The protected-region detector (`MDXParser` in `utils.py`) -/

/-- A word character of the regex `\w` (ASCII reading). -/
def isWordChar (c : Char) : Bool := c.isAlphanum || c == '_'

/-- The regex match of component opening tags (optional whitespace, `<`,
an uppercase letter, then word characters): the captured component name,
when the line (after leading whitespace) opens a capitalized tag. -/
def jsxStartName (line : String) : Option String :=
  match line.data.dropWhile Char.isWhitespace with
  | '<' :: c :: rest =>
      if c.isUpper then some (String.mk (c :: rest.takeWhile isWordChar)) else none
  | _ => none

/-- The scanner state of `_identify_protected_regions`: the single
currently-open component (flag, start line, name), the running brace
count (written but never read by the code), and the accumulated
protected regions. -/
structure MDXState where
  in_jsx_block : Bool
  jsx_start_line : Option Nat
  component_name : Option String
  brace_count : Int
  protected_regions : List (Nat × Nat)
deriving DecidableEq, Repr

/-- The trailing `if in_jsx_block and component_name:` check of the
scanner loop body: close the open component region when the line
matches `^\s*</Name>`. -/
def mdxCloseCheck (st : MDXState) (line_idx : Nat) (line : String) : MDXState :=
  match st.component_name with
  | some name =>
      if st.in_jsx_block && (name != "") &&
          pyStartsWith (pyLstrip line) ("</" ++ name ++ ">") then
        { st with
          protected_regions := st.protected_regions ++ [(st.jsx_start_line.getD 0, line_idx)],
          in_jsx_block := false, jsx_start_line := none, component_name := none }
      else st
  | none => st

/-- One iteration of the `_identify_protected_regions` loop over
`(line_idx, line)`, translating the Python control flow branch by
branch (`continue` = return the updated state without running the
trailing close-tag check). -/
def mdxStep (st : MDXState) (line_idx : Nat) (line : String) : MDXState :=
  let stripped := pyStrip line
  if stripped.data.isEmpty && !st.in_jsx_block then st
  else if !st.in_jsx_block &&
      (pyStartsWith stripped "import " || pyStartsWith stripped "export ") then
    { st with protected_regions := st.protected_regions ++ [(line_idx, line_idx)] }
  else
    match jsxStartName line, st.in_jsx_block with
    | some name, false =>
        if pyEndsWith (pyStrip line) "/>" then
          { st with protected_regions := st.protected_regions ++ [(line_idx, line_idx)],
                    in_jsx_block := false, jsx_start_line := none,
                    component_name := none, brace_count := 0 }
        else if pyContainsSub ("</" ++ name ++ ">").data line.data then
          { st with protected_regions := st.protected_regions ++ [(line_idx, line_idx)],
                    in_jsx_block := false, jsx_start_line := none,
                    component_name := none, brace_count := 0 }
        else
          mdxCloseCheck
            { st with in_jsx_block := true, jsx_start_line := some line_idx,
                      component_name := some name, brace_count := 0 }
            line_idx line
    | _, _ =>
        if pyHasChar line '\x7b' || pyHasChar line '\x7d' then
          if !st.in_jsx_block && pyCountChar line '\x7b' > 0 then
            { st with protected_regions := st.protected_regions ++ [(line_idx, line_idx)] }
          else
            mdxCloseCheck
              { st with brace_count :=
                  st.brace_count + (pyCountChar line '\x7b' : Int) - (pyCountChar line '\x7d' : Int) }
              line_idx line
        else mdxCloseCheck st line_idx line

/-- `_identify_protected_regions`: fold the scanner over the 1-indexed
lines of the document. -/
def identify_protected_regions (lines : List String) : List (Nat × Nat) :=
  ((List.enumFrom 1 lines).foldl (fun st p => mdxStep st p.1 p.2)
      ⟨false, none, none, 0, []⟩).protected_regions

/-- `MDXParser.is_protected_line`: membership in any protected
interval (inclusive on both ends). -/
def is_protected_line (regions : List (Nat × Nat)) (line_number : Nat) : Bool :=
  regions.any (fun r => r.1 ≤ line_number && line_number ≤ r.2)

/-! ### The Vale collector (`ValeEditor.collect_issues`) -/

/-- `ValeEditor.collect_issues`, given the issues reported by the
external `run_vale` call: skip issues on MDX-protected lines, skip
issues whose line is not in the line lookup, and register the rest as
replace issues whose `existing_content` is the looked-up line. -/
def collect_issues (vale_issues : List LineIssue) (is_mdx : Bool)
    (regions : List (Nat × Nat)) (line_lookup : List (Nat × String)) :
    List ReplaceLineFixableIssue :=
  vale_issues.filterMap (fun issue =>
    if is_mdx && is_protected_line regions issue.line then none
    else
      match lkGet line_lookup issue.line with
      | some content => some ⟨issue.line, issue.issue_message, content⟩
      | none => none)

/-! ### Association-list lemmas (Python-dict semantics) -/

theorem lkGet_cons (p : Nat × String) (l : List (Nat × String)) (n : Nat) :
    lkGet (p :: l) n = if p.1 = n then some p.2 else lkGet l n := by
  simp only [lkGet, List.find?_cons]
  by_cases h : p.1 = n
  · simp [h]
  · simp [h, beq_false_of_ne h]

theorem lkHas_cons (p : Nat × String) (l : List (Nat × String)) (n : Nat) :
    lkHas (p :: l) n = ((p.1 == n) || lkHas l n) := by
  simp [lkHas]

theorem lkHas_eq_isSome (l : List (Nat × String)) (n : Nat) :
    lkHas l n = (lkGet l n).isSome := by
  induction l with
  | nil => rfl
  | cons p l ih =>
      rw [lkHas_cons, lkGet_cons]
      by_cases h : p.1 = n <;> simp [h, ih]

theorem lkHas_iff_mem (l : List (Nat × String)) (n : Nat) :
    lkHas l n = true ↔ n ∈ l.map Prod.fst := by
  simp only [lkHas, List.any_eq_true, List.mem_map]
  constructor
  · rintro ⟨p, hp, he⟩
    exact ⟨p, hp, by simpa using he⟩
  · rintro ⟨p, hp, he⟩
    exact ⟨p, hp, by simpa using he⟩

theorem lkGet_eq_none_iff (l : List (Nat × String)) (n : Nat) :
    lkGet l n = none ↔ n ∉ l.map Prod.fst := by
  rw [← lkHas_iff_mem, lkHas_eq_isSome]
  cases h : lkGet l n <;> simp [h]

theorem lkGet_map_update (l : List (Nat × String)) (n : Nat) (v : String) :
    lkGet (l.map (fun p => if p.1 == n then (n, v) else p)) n =
      if lkHas l n then some v else none := by
  induction l with
  | nil => rfl
  | cons p l ih =>
      by_cases h : p.1 = n
      · simp [h, lkGet_cons, lkHas_cons]
      · simp only [List.map_cons, beq_false_of_ne h, if_neg, Bool.false_eq_true,
          not_false_iff, ite_false]
        rw [lkGet_cons, lkHas_cons, if_neg h, ih]
        simp [h]

theorem lkGet_append_single_self (l : List (Nat × String)) (n : Nat) (v : String)
    (h : lkHas l n = false) : lkGet (l ++ [(n, v)]) n = some v := by
  induction l with
  | nil => simp [lkGet]
  | cons p l ih =>
      rw [lkHas_cons] at h
      simp only [Bool.or_eq_false_iff, beq_eq_false_iff_ne, ne_eq] at h
      rw [List.cons_append, lkGet_cons, if_neg h.1, ih h.2]

theorem lkGet_lkSet_self (l : List (Nat × String)) (n : Nat) (v : String) :
    lkGet (lkSet l n v) n = some v := by
  unfold lkSet
  cases h : lkHas l n
  · simp only [Bool.false_eq_true, if_neg, not_false_iff, ite_false]
    exact lkGet_append_single_self l n v h
  · simp only [ite_true]
    rw [lkGet_map_update, h]
    simp

theorem lkGet_map_update_ne (l : List (Nat × String)) (m n : Nat) (v : String)
    (hne : n ≠ m) :
    lkGet (l.map (fun p => if p.1 == m then (m, v) else p)) n = lkGet l n := by
  induction l with
  | nil => rfl
  | cons p l ih =>
      by_cases h : p.1 = m
      · simp only [List.map_cons, h, beq_self_eq_true, ite_true]
        rw [lkGet_cons, lkGet_cons, if_neg (fun he => hne he.symm), if_neg, ih]
        rw [h]; exact fun he => hne he.symm
      · simp only [List.map_cons, beq_false_of_ne h, Bool.false_eq_true, if_neg,
          not_false_iff, ite_false]
        rw [lkGet_cons, lkGet_cons, ih]

theorem lkGet_append_single_ne (l : List (Nat × String)) (m n : Nat) (v : String)
    (hne : n ≠ m) : lkGet (l ++ [(m, v)]) n = lkGet l n := by
  induction l with
  | nil => simp [lkGet, List.find?, beq_false_of_ne hne.symm]
  | cons p l ih => rw [List.cons_append, lkGet_cons, lkGet_cons, ih]

theorem lkGet_lkSet_ne (l : List (Nat × String)) (m n : Nat) (v : String)
    (hne : n ≠ m) : lkGet (lkSet l m v) n = lkGet l n := by
  unfold lkSet
  cases h : lkHas l m
  · simp only [Bool.false_eq_true, if_neg, not_false_iff, ite_false]
    exact lkGet_append_single_ne l m n v hne
  · simp only [ite_true]
    exact lkGet_map_update_ne l m n v hne

theorem lkHas_lkSet_mono (l : List (Nat × String)) (m n : Nat) (v : String)
    (h : lkHas l n = true) : lkHas (lkSet l m v) n = true := by
  by_cases he : n = m
  · subst he
    rw [lkHas_eq_isSome, lkGet_lkSet_self]
    rfl
  · rw [lkHas_eq_isSome, lkGet_lkSet_ne l m n v he, ← lkHas_eq_isSome]
    exact h

theorem lkGet_isSome_lkSet_mono (l : List (Nat × String)) (m n : Nat) (v : String)
    (h : (lkGet l n).isSome = true) : (lkGet (lkSet l m v) n).isSome = true := by
  rw [← lkHas_eq_isSome] at h ⊢
  exact lkHas_lkSet_mono l m n v h

theorem lkSet_keys_of_has (l : List (Nat × String)) (n : Nat) (v : String)
    (h : lkHas l n = true) :
    (lkSet l n v).map Prod.fst = l.map Prod.fst := by
  unfold lkSet
  rw [h]
  simp only [ite_true, List.map_map]
  apply List.map_congr_left
  intro p _
  by_cases hp : p.1 = n
  · simp [hp]
  · simp [hp]

theorem lkSet_keys_of_not_has (l : List (Nat × String)) (n : Nat) (v : String)
    (h : lkHas l n = false) :
    (lkSet l n v).map Prod.fst = l.map Prod.fst ++ [n] := by
  unfold lkSet
  rw [h]
  simp

theorem lkSet_keys_nodup (l : List (Nat × String)) (n : Nat) (v : String)
    (h : (l.map Prod.fst).Nodup) : ((lkSet l n v).map Prod.fst).Nodup := by
  cases hh : lkHas l n
  · rw [lkSet_keys_of_not_has l n v hh]
    have hnm : n ∉ l.map Prod.fst := by
      intro hc
      rw [(lkHas_iff_mem l n).2 hc] at hh
      cases hh
    simp only [List.nodup_append, List.nodup_cons, List.not_mem_nil, not_false_iff,
      List.nodup_nil, and_true, true_and]
    exact ⟨h, fun a ha => by simp; rintro rfl; exact hnm ha⟩
  · rw [lkSet_keys_of_has l n v hh]
    exact h

theorem lkSet_length_of_not_has (l : List (Nat × String)) (n : Nat) (v : String)
    (h : lkHas l n = false) : (lkSet l n v).length = l.length + 1 := by
  unfold lkSet
  rw [h]
  simp

theorem lkGet_eq_of_mem_nodup (l : List (Nat × String)) (n : Nat) (v : String)
    (hnd : (l.map Prod.fst).Nodup) (hm : (n, v) ∈ l) : lkGet l n = some v := by
  induction l with
  | nil => cases hm
  | cons p l ih =>
      simp only [List.map_cons, List.nodup_cons] at hnd
      rcases List.mem_cons.1 hm with h | h
      · rw [← h, lkGet_cons, if_pos rfl]
      · rw [lkGet_cons, if_neg, ih hnd.2 h]
        intro he
        exact hnd.1 (he ▸ List.mem_map_of_mem Prod.fst h)

theorem mem_of_lkGet_eq_some (l : List (Nat × String)) (n : Nat) (v : String)
    (h : lkGet l n = some v) : (n, v) ∈ l := by
  induction l with
  | nil => cases h
  | cons p l ih =>
      rw [lkGet_cons] at h
      by_cases hp : p.1 = n
      · rw [if_pos hp] at h
        cases h
        rw [← hp]
        simp
      · rw [if_neg hp] at h
        exact List.mem_cons_of_mem p (ih h)

/-! ### Ordering lemmas for lookups -/

theorem enumFrom_pairwise_keyLT (n : Nat) (l : List String) :
    List.Pairwise keyLT (List.enumFrom n l) := by
  induction l generalizing n with
  | nil => exact List.Pairwise.nil
  | cons a l ih =>
      rw [List.enumFrom_cons]
      refine List.Pairwise.cons ?_ (ih (n + 1))
      intro q hq
      obtain ⟨m, c⟩ := q
      have h := (List.mem_enumFrom hq).1
      exact Nat.lt_of_lt_of_le (Nat.lt_succ_self n) h

theorem pairwise_keyLE_of_keyLT {l : List (Nat × String)}
    (h : List.Pairwise keyLT l) : List.Pairwise keyLE l :=
  h.imp (fun hlt => Nat.le_of_lt hlt)

theorem keys_nodup_of_pairwise_keyLT {l : List (Nat × String)}
    (h : List.Pairwise keyLT l) : (l.map Prod.fst).Nodup := by
  rw [List.Nodup, List.pairwise_map]
  exact h.imp (fun hlt => Nat.ne_of_lt hlt)

theorem pairwise_keyLT_of_keyLE_nodup {l : List (Nat × String)}
    (hle : List.Pairwise keyLE l) (hnd : (l.map Prod.fst).Nodup) :
    List.Pairwise keyLT l := by
  rw [List.Nodup, List.pairwise_map] at hnd
  exact (hle.and hnd).imp (fun h => Nat.lt_of_le_of_ne h.1 h.2)

theorem sortByKey_perm (l : List (Nat × String)) : (sortByKey l).Perm l :=
  List.perm_insertionSort keyLE l

theorem sortByKey_sorted (l : List (Nat × String)) :
    List.Pairwise keyLE (sortByKey l) :=
  List.sorted_insertionSort keyLE l

theorem sortByKey_eq_of_pairwise {l : List (Nat × String)}
    (h : List.Pairwise keyLE l) : sortByKey l = l :=
  List.Sorted.insertionSort_eq h

theorem lookup_pairwise_keyLT (text : String) :
    List.Pairwise keyLT (get_line_number_lookup text) :=
  enumFrom_pairwise_keyLT 1 (splitLines text)

theorem lookup_keys_nodup (text : String) :
    ((get_line_number_lookup text).map Prod.fst).Nodup :=
  keys_nodup_of_pairwise_keyLT (lookup_pairwise_keyLT text)

theorem sortByKey_lookup (text : String) :
    sortByKey (get_line_number_lookup text) = get_line_number_lookup text :=
  sortByKey_eq_of_pairwise (pairwise_keyLE_of_keyLT (lookup_pairwise_keyLT text))

theorem lookup_map_snd (text : String) :
    (get_line_number_lookup text).map Prod.snd = splitLines text :=
  List.enumFrom_map_snd 1 (splitLines text)

theorem lookup_length (text : String) :
    (get_line_number_lookup text).length = (splitLines text).length :=
  List.enumFrom_length

/-! ### Splitting and joining lines -/

theorem joinLines_splitLines (s : String) : joinLines (splitLines s) = s := by
  unfold joinLines splitLines
  rw [List.map_map]
  have h : (String.data ∘ String.mk) = id := rfl
  rw [h, List.map_id, List.intercalate_splitOn]

/-! ### Emission-loop lemmas -/

/-- The original line number and content carried by a tagged emitted
line (insertions carry `none` and are dropped). -/
def taggedPair (p : Option Nat × String) : Option (Nat × String) :=
  p.1.map (fun L => (L, p.2))

theorem gateInsertions_tagged (approve : Approver) (ins : List InsertLineIssue) :
    (gateInsertions approve ins).filterMap taggedPair = [] := by
  induction ins with
  | nil => rfl
  | cons i ins ih =>
      unfold gateInsertions at ih ⊢
      by_cases h : approve (.insert i) i.insert_content = true
      · simp only [List.filterMap_cons, h, ite_true, taggedPair, Option.map_none]
        exact ih
      · simp only [List.filterMap_cons, h, Bool.false_eq_true, ite_false]
        exact ih

theorem gateInsertions_all_rejected (approve : Approver)
    (hrej : ∀ issue pf, approve issue pf = false) (ins : List InsertLineIssue) :
    gateInsertions approve ins = [] := by
  induction ins with
  | nil => rfl
  | cons i ins ih =>
      simp only [gateInsertions, List.filterMap_cons, hrej, Bool.false_eq_true,
        if_neg, not_false_iff, ite_false] at ih ⊢
      exact ih

theorem emitLoop_no_changes_no_ins (approve : Approver) (items : List (Nat × String)) :
    emitLoop approve [] items [] = items.map (fun p => (some p.1, p.2)) := by
  induction items with
  | nil => rfl
  | cons p rest ih =>
      obtain ⟨n, content⟩ := p
      simp only [emitLoop, List.takeWhile_nil, List.dropWhile_nil, gateInsertions,
        List.filterMap_nil, List.nil_append, lkGet, List.find?_nil, Option.map_none,
        List.map_cons, ih]
      rfl

theorem emitLoop_all_rejected (approve : Approver)
    (hrej : ∀ issue pf, approve issue pf = false) :
    ∀ (items : List (Nat × String)) (ins : List InsertLineIssue),
      emitLoop approve [] items ins = items.map (fun p => (some p.1, p.2)) := by
  intro items
  induction items with
  | nil =>
      intro ins
      simp only [emitLoop, List.map_nil]
      exact gateInsertions_all_rejected approve hrej ins
  | cons p rest ih =>
      intro ins
      obtain ⟨n, content⟩ := p
      simp only [emitLoop, gateInsertions_all_rejected approve hrej, List.nil_append,
        List.map_cons, ih]
      rfl

theorem emitLoop_sentinel (approve : Approver) (ch : List (Nat × String))
    (hsent : ∀ n c, lkGet ch n = some c → c = DELETE_LINE_MESSAGE)
    (items : List (Nat × String)) :
    emitLoop approve ch items [] =
      (items.filter (fun q => (lkGet ch q.1).isNone)).map (fun q => (some q.1, q.2)) := by
  induction items with
  | nil => rfl
  | cons p rest ih =>
      obtain ⟨n, content⟩ := p
      simp only [emitLoop, List.takeWhile_nil, List.dropWhile_nil, gateInsertions,
        List.filterMap_nil, List.nil_append]
      cases h : lkGet ch n with
      | none => simp [List.filter_cons, h, ih]
      | some c =>
          have hc := hsent n c h
          simp [List.filter_cons, h, hc, ih]

theorem emitLoop_filter (approve : Approver) (ch : List (Nat × String)) (P : Nat → Bool)
    (hP : ∀ n, P n = true → lkGet ch n = none) :
    ∀ (items : List (Nat × String)) (ins : List InsertLineIssue),
      ((emitLoop approve ch items ins).filterMap taggedPair).filter (fun q => P q.1) =
        items.filter (fun q => P q.1) := by
  intro items
  induction items with
  | nil =>
      intro ins
      simp only [emitLoop, gateInsertions_tagged, List.filter_nil]
  | cons p rest ih =>
      intro ins
      obtain ⟨n, content⟩ := p
      simp only [emitLoop, List.filterMap_append, List.filter_append,
        gateInsertions_tagged, List.filter_nil, List.nil_append, ih]
      cases h : lkGet ch n with
      | none =>
          cases hp : P n with
          | true => simp [taggedPair, List.filter_cons, hp]
          | false => simp [taggedPair, List.filter_cons, hp]
      | some c =>
          have hp : P n = false := by
            cases hpt : P n
            · rfl
            · rw [hP n hpt] at h
              cases h
          by_cases hc : c = DELETE_LINE_MESSAGE
          · simp [hc, List.filter_cons, hp]
          · simp [hc, taggedPair, List.filter_cons, hp]

/-! ### Filtered agreement between lookups -/

theorem filter_perm_of_agree (P : Nat → Bool) (l₁ l₂ : List (Nat × String))
    (h₁ : (l₁.map Prod.fst).Nodup) (h₂ : (l₂.map Prod.fst).Nodup)
    (hag : ∀ n, P n = true → lkGet l₁ n = lkGet l₂ n) :
    (l₁.filter (fun q => P q.1)).Perm (l₂.filter (fun q => P q.1)) := by
  rw [List.perm_ext_iff_of_nodup ((List.Nodup.of_map Prod.fst h₁).filter _)
    ((List.Nodup.of_map Prod.fst h₂).filter _)]
  intro q
  obtain ⟨n, v⟩ := q
  simp only [List.mem_filter]
  constructor
  · rintro ⟨hm, hp⟩
    refine ⟨?_, hp⟩
    exact mem_of_lkGet_eq_some l₂ n v
      ((hag n hp) ▸ lkGet_eq_of_mem_nodup l₁ n v h₁ hm)
  · rintro ⟨hm, hp⟩
    refine ⟨?_, hp⟩
    exact mem_of_lkGet_eq_some l₁ n v
      ((hag n hp) ▸ lkGet_eq_of_mem_nodup l₂ n v h₂ hm)

theorem sortByKey_filter_eq (P : Nat → Bool) (l₁ l₂ : List (Nat × String))
    (h₁ : (l₁.map Prod.fst).Nodup) (h₂nd : (l₂.map Prod.fst).Nodup)
    (h₂s : List.Pairwise keyLT l₂)
    (hag : ∀ n, P n = true → lkGet l₁ n = lkGet l₂ n) :
    (sortByKey l₁).filter (fun q => P q.1) = l₂.filter (fun q => P q.1) := by
  have hperm : ((sortByKey l₁).filter (fun q => P q.1)).Perm
      (l₂.filter (fun q => P q.1)) :=
    ((sortByKey_perm l₁).filter _).trans (filter_perm_of_agree P l₁ l₂ h₁ h₂nd hag)
  have hs₂ : List.Pairwise keyLT (l₂.filter (fun q => P q.1)) :=
    List.Pairwise.sublist (List.filter_sublist l₂) h₂s
  have hnd₂ : ((l₂.filter (fun q => P q.1)).map Prod.fst).Nodup :=
    List.Nodup.sublist (List.Sublist.map Prod.fst (List.filter_sublist l₂)) h₂nd
  have hnd₁ : (((sortByKey l₁).filter (fun q => P q.1)).map Prod.fst).Nodup :=
    (List.Perm.nodup_iff (List.Perm.map Prod.fst hperm)).2 hnd₂
  have hs₁ : List.Pairwise keyLT ((sortByKey l₁).filter (fun q => P q.1)) :=
    pairwise_keyLT_of_keyLE_nodup
      (List.Pairwise.sublist (List.filter_sublist _) (sortByKey_sorted l₁)) hnd₁
  exact List.eq_of_perm_of_sorted hperm hs₁ hs₂

/-! ### Replacement-phase lemmas -/

theorem processReplacements_cons (resolver : Resolver) (approve : Approver)
    (g : IssueGroup) (gs : List IssueGroup) (lk ch : List (Nat × String))
    (calls : List (ReplaceLineFixableIssue × String)) :
    processReplacements resolver approve (g :: gs) lk ch calls =
      (if approve (.replace (mkDeduped g)) (resolver (mkDeduped g) (buildContext g.line lk)) then
        match lkGet lk g.line with
        | none => .error g.line
        | some current =>
            if resolver (mkDeduped g) (buildContext g.line lk) = current then
              processReplacements resolver approve gs lk ch
                (calls ++ [(mkDeduped g, buildContext g.line lk)])
            else
              processReplacements resolver approve gs
                (lkSet lk g.line (resolver (mkDeduped g) (buildContext g.line lk)))
                (lkSet ch g.line (resolver (mkDeduped g) (buildContext g.line lk)))
                (calls ++ [(mkDeduped g, buildContext g.line lk)])
       else
        processReplacements resolver approve gs lk ch
          (calls ++ [(mkDeduped g, buildContext g.line lk)])) := rfl

theorem processReplacements_cons_rej (resolver : Resolver) (approve : Approver)
    (g : IssueGroup) (gs : List IssueGroup) (lk ch : List (Nat × String))
    (calls : List (ReplaceLineFixableIssue × String))
    (happ : approve (.replace (mkDeduped g))
      (resolver (mkDeduped g) (buildContext g.line lk)) = false) :
    processReplacements resolver approve (g :: gs) lk ch calls =
      processReplacements resolver approve gs lk ch
        (calls ++ [(mkDeduped g, buildContext g.line lk)]) := by
  rw [processReplacements_cons, if_neg]
  rw [happ]
  exact fun h => Bool.noConfusion h

theorem processReplacements_cons_none (resolver : Resolver) (approve : Approver)
    (g : IssueGroup) (gs : List IssueGroup) (lk ch : List (Nat × String))
    (calls : List (ReplaceLineFixableIssue × String))
    (happ : approve (.replace (mkDeduped g))
      (resolver (mkDeduped g) (buildContext g.line lk)) = true)
    (hget : lkGet lk g.line = none) :
    processReplacements resolver approve (g :: gs) lk ch calls = .error g.line := by
  rw [processReplacements_cons, if_pos happ, hget]

theorem processReplacements_cons_some (resolver : Resolver) (approve : Approver)
    (g : IssueGroup) (gs : List IssueGroup) (lk ch : List (Nat × String))
    (calls : List (ReplaceLineFixableIssue × String)) (current : String)
    (happ : approve (.replace (mkDeduped g))
      (resolver (mkDeduped g) (buildContext g.line lk)) = true)
    (hget : lkGet lk g.line = some current) :
    processReplacements resolver approve (g :: gs) lk ch calls =
      (if resolver (mkDeduped g) (buildContext g.line lk) = current then
        processReplacements resolver approve gs lk ch
          (calls ++ [(mkDeduped g, buildContext g.line lk)])
       else
        processReplacements resolver approve gs
          (lkSet lk g.line (resolver (mkDeduped g) (buildContext g.line lk)))
          (lkSet ch g.line (resolver (mkDeduped g) (buildContext g.line lk)))
          (calls ++ [(mkDeduped g, buildContext g.line lk)])) := by
  rw [processReplacements_cons, if_pos happ, hget]

theorem processReplacements_frame (resolver : Resolver) (approve : Approver) :
    ∀ (gs : List IssueGroup) (lk ch : List (Nat × String))
      (calls : List (ReplaceLineFixableIssue × String)) (r : ReplacePhaseResult),
      processReplacements resolver approve gs lk ch calls = .ok r →
      ∀ n, lkGet r.changes n = none →
        lkGet r.lookup n = lkGet lk n ∧ lkGet ch n = none := by
  intro gs
  induction gs with
  | nil =>
      intro lk ch calls r h n hn
      cases h
      exact ⟨rfl, hn⟩
  | cons g gs ih =>
      intro lk ch calls r h n hn
      by_cases happ : approve (.replace (mkDeduped g))
          (resolver (mkDeduped g) (buildContext g.line lk)) = true
      · cases hget : lkGet lk g.line with
        | none =>
            rw [processReplacements_cons_none resolver approve g gs lk ch calls happ hget] at h
            cases h
        | some current =>
            rw [processReplacements_cons_some resolver approve g gs lk ch calls current
              happ hget] at h
            by_cases heq : resolver (mkDeduped g) (buildContext g.line lk) = current
            · rw [if_pos heq] at h
              exact ih lk ch _ r h n hn
            · rw [if_neg heq] at h
              obtain ⟨h1, h2⟩ := ih _ _ _ r h n hn
              have hne : n ≠ g.line := by
                rintro rfl
                rw [lkGet_lkSet_self] at h2
                cases h2
              rw [lkGet_lkSet_ne lk g.line n _ hne] at h1
              rw [lkGet_lkSet_ne ch g.line n _ hne] at h2
              exact ⟨h1, h2⟩
      · rw [processReplacements_cons_rej resolver approve g gs lk ch calls
          (Bool.eq_false_iff.2 happ)] at h
        exact ih lk ch _ r h n hn

theorem processReplacements_keys (resolver : Resolver) (approve : Approver) :
    ∀ (gs : List IssueGroup) (lk ch : List (Nat × String))
      (calls : List (ReplaceLineFixableIssue × String)) (r : ReplacePhaseResult),
      processReplacements resolver approve gs lk ch calls = .ok r →
      r.lookup.map Prod.fst = lk.map Prod.fst := by
  intro gs
  induction gs with
  | nil => intro lk ch calls r h; cases h; rfl
  | cons g gs ih =>
      intro lk ch calls r h
      by_cases happ : approve (.replace (mkDeduped g))
          (resolver (mkDeduped g) (buildContext g.line lk)) = true
      · cases hget : lkGet lk g.line with
        | none =>
            rw [processReplacements_cons_none resolver approve g gs lk ch calls happ hget] at h
            cases h
        | some current =>
            rw [processReplacements_cons_some resolver approve g gs lk ch calls current
              happ hget] at h
            by_cases heq : resolver (mkDeduped g) (buildContext g.line lk) = current
            · rw [if_pos heq] at h
              exact ih lk ch _ r h
            · rw [if_neg heq] at h
              have hhas : lkHas lk g.line = true := by
                rw [lkHas_eq_isSome, hget]; rfl
              rw [ih _ _ _ r h, lkSet_keys_of_has lk g.line _ hhas]
      · rw [processReplacements_cons_rej resolver approve g gs lk ch calls
          (Bool.eq_false_iff.2 happ)] at h
        exact ih lk ch _ r h

theorem processReplacements_ch_keys (resolver : Resolver) (approve : Approver) :
    ∀ (gs : List IssueGroup) (lk ch : List (Nat × String))
      (calls : List (ReplaceLineFixableIssue × String)) (r : ReplacePhaseResult),
      processReplacements resolver approve gs lk ch calls = .ok r →
      ∀ n, (lkGet r.changes n).isSome = true →
        (lkGet ch n).isSome = true ∨ ∃ g ∈ gs, g.line = n := by
  intro gs
  induction gs with
  | nil =>
      intro lk ch calls r h n hn
      cases h
      exact Or.inl hn
  | cons g gs ih =>
      intro lk ch calls r h n hn
      by_cases happ : approve (.replace (mkDeduped g))
          (resolver (mkDeduped g) (buildContext g.line lk)) = true
      · cases hget : lkGet lk g.line with
        | none =>
            rw [processReplacements_cons_none resolver approve g gs lk ch calls happ hget] at h
            cases h
        | some current =>
            rw [processReplacements_cons_some resolver approve g gs lk ch calls current
              happ hget] at h
            by_cases heq : resolver (mkDeduped g) (buildContext g.line lk) = current
            · rw [if_pos heq] at h
              rcases ih lk ch _ r h n hn with h1 | ⟨g1, hg1, he⟩
              · exact Or.inl h1
              · exact Or.inr ⟨g1, List.mem_cons_of_mem g hg1, he⟩
            · rw [if_neg heq] at h
              rcases ih _ _ _ r h n hn with h1 | ⟨g1, hg1, he⟩
              · by_cases hne : n = g.line
                · exact Or.inr ⟨g, List.mem_cons_self g gs, hne.symm⟩
                · rw [lkGet_lkSet_ne ch g.line n _ hne] at h1
                  exact Or.inl h1
              · exact Or.inr ⟨g1, List.mem_cons_of_mem g hg1, he⟩
      · rw [processReplacements_cons_rej resolver approve g gs lk ch calls
          (Bool.eq_false_iff.2 happ)] at h
        rcases ih lk ch _ r h n hn with h1 | ⟨g1, hg1, he⟩
        · exact Or.inl h1
        · exact Or.inr ⟨g1, List.mem_cons_of_mem g hg1, he⟩

theorem processReplacements_ok (resolver : Resolver) (approve : Approver) :
    ∀ (gs : List IssueGroup) (lk ch : List (Nat × String))
      (calls : List (ReplaceLineFixableIssue × String)),
      (∀ g ∈ gs, lkHas lk g.line = true) →
      ∃ r, processReplacements resolver approve gs lk ch calls = .ok r := by
  intro gs
  induction gs with
  | nil => intro lk ch calls _; exact ⟨⟨lk, ch, calls⟩, rfl⟩
  | cons g gs ih =>
      intro lk ch calls hhas
      by_cases happ : approve (.replace (mkDeduped g))
          (resolver (mkDeduped g) (buildContext g.line lk)) = true
      · cases hget : lkGet lk g.line with
        | none =>
            have hh := hhas g (List.mem_cons_self g gs)
            rw [lkHas_eq_isSome, hget] at hh
            cases hh
        | some current =>
            rw [processReplacements_cons_some resolver approve g gs lk ch calls current
              happ hget]
            by_cases heq : resolver (mkDeduped g) (buildContext g.line lk) = current
            · rw [if_pos heq]
              exact ih lk ch _ (fun g1 hg1 => hhas g1 (List.mem_cons_of_mem g hg1))
            · rw [if_neg heq]
              exact ih _ _ _ (fun g1 hg1 =>
                lkHas_lkSet_mono lk g.line g1.line _
                  (hhas g1 (List.mem_cons_of_mem g hg1)))
      · rw [processReplacements_cons_rej resolver approve g gs lk ch calls
          (Bool.eq_false_iff.2 happ)]
        exact ih lk ch _ (fun g1 hg1 => hhas g1 (List.mem_cons_of_mem g hg1))

theorem processReplacements_all_rejected (resolver : Resolver) (approve : Approver)
    (hrej : ∀ issue pf, approve issue pf = false) :
    ∀ (gs : List IssueGroup) (lk ch : List (Nat × String))
      (calls : List (ReplaceLineFixableIssue × String)),
      ∃ calls2, processReplacements resolver approve gs lk ch calls = .ok ⟨lk, ch, calls2⟩ := by
  intro gs
  induction gs with
  | nil => intro lk ch calls; exact ⟨calls, rfl⟩
  | cons g gs ih =>
      intro lk ch calls
      rw [processReplacements_cons_rej resolver approve g gs lk ch calls (hrej _ _)]
      exact ih lk ch _

theorem processReplacements_noop (approve : Approver) :
    ∀ (gs : List IssueGroup) (lk ch : List (Nat × String))
      (calls : List (ReplaceLineFixableIssue × String)),
      (∀ g ∈ gs, lkGet lk g.line = some (mkDeduped g).existing_content) →
      ∃ calls2, processReplacements (fun i _ => i.existing_content) approve gs lk ch calls =
        .ok ⟨lk, ch, calls2⟩ := by
  intro gs
  induction gs with
  | nil => intro lk ch calls _; exact ⟨calls, rfl⟩
  | cons g gs ih =>
      intro lk ch calls hcontent
      have hget := hcontent g (List.mem_cons_self g gs)
      by_cases happ : approve (.replace (mkDeduped g)) (mkDeduped g).existing_content = true
      · rw [processReplacements_cons_some (fun i _ => i.existing_content) approve g gs lk ch
          calls (mkDeduped g).existing_content happ hget, if_pos rfl]
        exact ih lk ch _ (fun g1 hg1 => hcontent g1 (List.mem_cons_of_mem g hg1))
      · rw [processReplacements_cons_rej (fun i _ => i.existing_content) approve g gs lk ch
          calls (Bool.eq_false_iff.2 happ)]
        exact ih lk ch _ (fun g1 hg1 => hcontent g1 (List.mem_cons_of_mem g hg1))

theorem processReplacements_calls (resolver : Resolver) (approve : Approver) :
    ∀ (gs : List IssueGroup) (lk ch : List (Nat × String))
      (calls : List (ReplaceLineFixableIssue × String)) (r : ReplacePhaseResult),
      processReplacements resolver approve gs lk ch calls = .ok r →
      r.calls.map (·.1) = calls.map (·.1) ++ gs.map mkDeduped := by
  intro gs
  induction gs with
  | nil => intro lk ch calls r h; cases h; simp
  | cons g gs ih =>
      intro lk ch calls r h
      by_cases happ : approve (.replace (mkDeduped g))
          (resolver (mkDeduped g) (buildContext g.line lk)) = true
      · cases hget : lkGet lk g.line with
        | none =>
            rw [processReplacements_cons_none resolver approve g gs lk ch calls happ hget] at h
            cases h
        | some current =>
            rw [processReplacements_cons_some resolver approve g gs lk ch calls current
              happ hget] at h
            by_cases heq : resolver (mkDeduped g) (buildContext g.line lk) = current
            · rw [if_pos heq] at h
              rw [ih _ _ _ r h]
              simp
            · rw [if_neg heq] at h
              rw [ih _ _ _ r h]
              simp
      · rw [processReplacements_cons_rej resolver approve g gs lk ch calls
          (Bool.eq_false_iff.2 happ)] at h
        rw [ih _ _ _ r h]
        simp

theorem processReplacements_append (resolver : Resolver) (approve : Approver) :
    ∀ (gs₁ gs₂ : List IssueGroup) (lk ch : List (Nat × String))
      (calls : List (ReplaceLineFixableIssue × String)),
      processReplacements resolver approve (gs₁ ++ gs₂) lk ch calls =
        (match processReplacements resolver approve gs₁ lk ch calls with
         | .error n => .error n
         | .ok r₁ => processReplacements resolver approve gs₂ r₁.lookup r₁.changes r₁.calls) := by
  intro gs₁
  induction gs₁ with
  | nil => intro gs₂ lk ch calls; rfl
  | cons g gs₁ ih =>
      intro gs₂ lk ch calls
      rw [List.cons_append]
      by_cases happ : approve (.replace (mkDeduped g))
          (resolver (mkDeduped g) (buildContext g.line lk)) = true
      · cases hget : lkGet lk g.line with
        | none =>
            rw [processReplacements_cons_none resolver approve g (gs₁ ++ gs₂) lk ch calls
              happ hget,
              processReplacements_cons_none resolver approve g gs₁ lk ch calls happ hget]
        | some current =>
            rw [processReplacements_cons_some resolver approve g (gs₁ ++ gs₂) lk ch calls
              current happ hget,
              processReplacements_cons_some resolver approve g gs₁ lk ch calls current
                happ hget]
            by_cases heq : resolver (mkDeduped g) (buildContext g.line lk) = current
            · rw [if_pos heq, if_pos heq, ih]
            · rw [if_neg heq, if_neg heq, ih]
      · rw [processReplacements_cons_rej resolver approve g (gs₁ ++ gs₂) lk ch calls
          (Bool.eq_false_iff.2 happ),
          processReplacements_cons_rej resolver approve g gs₁ lk ch calls
            (Bool.eq_false_iff.2 happ), ih]

theorem processReplacements_calls_extend (resolver : Resolver) (approve : Approver) :
    ∀ (gs : List IssueGroup) (lk ch : List (Nat × String))
      (calls : List (ReplaceLineFixableIssue × String)) (r : ReplacePhaseResult),
      processReplacements resolver approve gs lk ch calls = .ok r →
      ∃ tail, r.calls = calls ++ tail := by
  intro gs
  induction gs with
  | nil =>
      intro lk ch calls r h
      cases h
      exact ⟨[], (List.append_nil _).symm⟩
  | cons g gs ih =>
      intro lk ch calls r h
      by_cases happ : approve (.replace (mkDeduped g))
          (resolver (mkDeduped g) (buildContext g.line lk)) = true
      · cases hget : lkGet lk g.line with
        | none =>
            rw [processReplacements_cons_none resolver approve g gs lk ch calls happ hget] at h
            cases h
        | some current =>
            rw [processReplacements_cons_some resolver approve g gs lk ch calls current
              happ hget] at h
            by_cases heq : resolver (mkDeduped g) (buildContext g.line lk) = current
            · rw [if_pos heq] at h
              obtain ⟨t, ht⟩ := ih _ _ _ r h
              exact ⟨[(mkDeduped g, buildContext g.line lk)] ++ t,
                by rw [ht, List.append_assoc]⟩
            · rw [if_neg heq] at h
              obtain ⟨t, ht⟩ := ih _ _ _ r h
              exact ⟨[(mkDeduped g, buildContext g.line lk)] ++ t,
                by rw [ht, List.append_assoc]⟩
      · rw [processReplacements_cons_rej resolver approve g gs lk ch calls
          (Bool.eq_false_iff.2 happ)] at h
        obtain ⟨t, ht⟩ := ih _ _ _ r h
        exact ⟨[(mkDeduped g, buildContext g.line lk)] ++ t,
          by rw [ht, List.append_assoc]⟩

theorem processReplacements_cons_calls (resolver : Resolver) (approve : Approver)
    (g : IssueGroup) (gs : List IssueGroup) (lk ch : List (Nat × String))
    (calls : List (ReplaceLineFixableIssue × String)) (r : ReplacePhaseResult)
    (h : processReplacements resolver approve (g :: gs) lk ch calls = .ok r) :
    ∃ tail, r.calls = calls ++ [(mkDeduped g, buildContext g.line lk)] ++ tail := by
  by_cases happ : approve (.replace (mkDeduped g))
      (resolver (mkDeduped g) (buildContext g.line lk)) = true
  · cases hget : lkGet lk g.line with
    | none =>
        rw [processReplacements_cons_none resolver approve g gs lk ch calls happ hget] at h
        cases h
    | some current =>
        rw [processReplacements_cons_some resolver approve g gs lk ch calls current
          happ hget] at h
        by_cases heq : resolver (mkDeduped g) (buildContext g.line lk) = current
        · rw [if_pos heq] at h
          exact processReplacements_calls_extend resolver approve gs _ _ _ r h
        · rw [if_neg heq] at h
          exact processReplacements_calls_extend resolver approve gs _ _ _ r h
  · rw [processReplacements_cons_rej resolver approve g gs lk ch calls
      (Bool.eq_false_iff.2 happ)] at h
    exact processReplacements_calls_extend resolver approve gs _ _ _ r h

theorem processReplacements_calls_length (resolver : Resolver) (approve : Approver)
    (gs : List IssueGroup) (lk ch : List (Nat × String))
    (calls : List (ReplaceLineFixableIssue × String)) (r : ReplacePhaseResult)
    (h : processReplacements resolver approve gs lk ch calls = .ok r) :
    r.calls.length = calls.length + gs.length := by
  have h1 := processReplacements_calls resolver approve gs lk ch calls r h
  have h2 := congrArg List.length h1
  simpa using h2

theorem processReplacements_append_ok (resolver : Resolver) (approve : Approver)
    (gs₁ gs₂ : List IssueGroup) (lk ch : List (Nat × String))
    (calls : List (ReplaceLineFixableIssue × String)) (r₁ : ReplacePhaseResult)
    (h₁ : processReplacements resolver approve gs₁ lk ch calls = .ok r₁) :
    processReplacements resolver approve (gs₁ ++ gs₂) lk ch calls =
      processReplacements resolver approve gs₂ r₁.lookup r₁.changes r₁.calls := by
  rw [processReplacements_append, h₁]

theorem processReplacements_append_error (resolver : Resolver) (approve : Approver)
    (gs₁ gs₂ : List IssueGroup) (lk ch : List (Nat × String))
    (calls : List (ReplaceLineFixableIssue × String)) (n : Nat)
    (h₁ : processReplacements resolver approve gs₁ lk ch calls = .error n) :
    processReplacements resolver approve (gs₁ ++ gs₂) lk ch calls = .error n := by
  rw [processReplacements_append, h₁]

/-! ### Deletion-phase lemmas -/

theorem processDeletions_frame (approve : Approver) :
    ∀ (ds : List DeleteLineIssue) (lk ch : List (Nat × String)) (n : Nat),
      lkGet (processDeletions approve ds lk ch).2 n = none →
      lkGet (processDeletions approve ds lk ch).1 n = lkGet lk n ∧ lkGet ch n = none := by
  intro ds
  induction ds with
  | nil => intro lk ch n hn; exact ⟨rfl, hn⟩
  | cons d ds ih =>
      intro lk ch n hn
      unfold processDeletions at hn ⊢
      by_cases happ : approve (.delete d) "TO DELETE" = true
      · rw [if_pos happ] at hn ⊢
        obtain ⟨h1, h2⟩ := ih _ _ n hn
        have hne : n ≠ d.line := by
          rintro rfl
          rw [lkGet_lkSet_self] at h2
          cases h2
        rw [lkGet_lkSet_ne lk d.line n _ hne] at h1
        rw [lkGet_lkSet_ne ch d.line n _ hne] at h2
        exact ⟨h1, h2⟩
      · rw [if_neg happ] at hn ⊢
        exact ih lk ch n hn

theorem processDeletions_keys_nodup (approve : Approver) :
    ∀ (ds : List DeleteLineIssue) (lk ch : List (Nat × String)),
      (lk.map Prod.fst).Nodup →
      (((processDeletions approve ds lk ch).1).map Prod.fst).Nodup := by
  intro ds
  induction ds with
  | nil => intro lk ch h; exact h
  | cons d ds ih =>
      intro lk ch h
      unfold processDeletions
      by_cases happ : approve (.delete d) "TO DELETE" = true
      · rw [if_pos happ]
        exact ih _ _ (lkSet_keys_nodup lk d.line _ h)
      · rw [if_neg happ]
        exact ih lk ch h

theorem processDeletions_ch_keys (approve : Approver) :
    ∀ (ds : List DeleteLineIssue) (lk ch : List (Nat × String)) (n : Nat),
      (lkGet (processDeletions approve ds lk ch).2 n).isSome = true →
      (lkGet ch n).isSome = true ∨ ∃ d ∈ ds, d.line = n := by
  intro ds
  induction ds with
  | nil => intro lk ch n hn; exact Or.inl hn
  | cons d ds ih =>
      intro lk ch n hn
      unfold processDeletions at hn
      by_cases happ : approve (.delete d) "TO DELETE" = true
      · rw [if_pos happ] at hn
        rcases ih _ _ n hn with h1 | ⟨d', hd', he⟩
        · by_cases hne : n = d.line
          · exact Or.inr ⟨d, List.mem_cons_self d ds, hne.symm⟩
          · rw [lkGet_lkSet_ne ch d.line n _ hne] at h1
            exact Or.inl h1
        · exact Or.inr ⟨d', List.mem_cons_of_mem d hd', he⟩
      · rw [if_neg happ] at hn
        rcases ih lk ch n hn with h1 | ⟨d', hd', he⟩
        · exact Or.inl h1
        · exact Or.inr ⟨d', List.mem_cons_of_mem d hd', he⟩

theorem processDeletions_ch_nodup (approve : Approver) :
    ∀ (ds : List DeleteLineIssue) (lk ch : List (Nat × String)),
      (ch.map Prod.fst).Nodup →
      (((processDeletions approve ds lk ch).2).map Prod.fst).Nodup := by
  intro ds
  induction ds with
  | nil => intro lk ch h; exact h
  | cons d ds ih =>
      intro lk ch h
      unfold processDeletions
      by_cases happ : approve (.delete d) "TO DELETE" = true
      · rw [if_pos happ]
        exact ih _ _ (lkSet_keys_nodup ch d.line _ h)
      · rw [if_neg happ]
        exact ih lk ch h

theorem processDeletions_ch_sentinel (approve : Approver) :
    ∀ (ds : List DeleteLineIssue) (lk ch : List (Nat × String)),
      (∀ n c, lkGet ch n = some c → c = DELETE_LINE_MESSAGE) →
      ∀ n c, lkGet (processDeletions approve ds lk ch).2 n = some c →
        c = DELETE_LINE_MESSAGE := by
  intro ds
  induction ds with
  | nil => intro lk ch h; exact h
  | cons d ds ih =>
      intro lk ch h
      unfold processDeletions
      by_cases happ : approve (.delete d) "TO DELETE" = true
      · rw [if_pos happ]
        refine ih _ _ (fun n c hc => ?_)
        by_cases hne : n = d.line
        · subst hne
          rw [lkGet_lkSet_self] at hc
          cases hc
          rfl
        · rw [lkGet_lkSet_ne ch d.line n _ hne] at hc
          exact h n c hc
      · rw [if_neg happ]
        exact ih lk ch h

theorem processDeletions_keys_of_has (approve : Approver) :
    ∀ (ds : List DeleteLineIssue) (lk ch : List (Nat × String)),
      (∀ d ∈ ds, lkHas lk d.line = true) →
      ((processDeletions approve ds lk ch).1).map Prod.fst = lk.map Prod.fst := by
  intro ds
  induction ds with
  | nil => intro lk ch _; rfl
  | cons d ds ih =>
      intro lk ch hhas
      unfold processDeletions
      by_cases happ : approve (.delete d) "TO DELETE" = true
      · rw [if_pos happ]
        rw [ih _ _ (fun d' hd' => lkHas_lkSet_mono lk d.line d'.line _
          (hhas d' (List.mem_cons_of_mem d hd')))]
        exact lkSet_keys_of_has lk d.line _ (hhas d (List.mem_cons_self d ds))
      · rw [if_neg happ]
        exact ih lk ch (fun d' hd' => hhas d' (List.mem_cons_of_mem d hd'))

theorem processDeletions_ch_length (approve : Approver) :
    ∀ (ds : List DeleteLineIssue) (lk ch : List (Nat × String)),
      (ds.map (·.line)).Nodup →
      (∀ d ∈ ds, lkHas ch d.line = false) →
      (processDeletions approve ds lk ch).2.length =
        ch.length + (ds.filter (fun d => approve (.delete d) "TO DELETE")).length := by
  intro ds
  induction ds with
  | nil => intro lk ch _ _; simp [processDeletions]
  | cons d ds ih =>
      intro lk ch hnd hfresh
      simp only [List.map_cons, List.nodup_cons] at hnd
      unfold processDeletions
      by_cases happ : approve (.delete d) "TO DELETE" = true
      · rw [if_pos happ]
        have hfresh' : ∀ d' ∈ ds, lkHas (lkSet ch d.line DELETE_LINE_MESSAGE) d'.line = false := by
          intro d' hd'
          have hne : d'.line ≠ d.line := by
            intro he
            exact hnd.1 (he ▸ List.mem_map_of_mem (·.line) hd')
          rw [lkHas_eq_isSome, lkGet_lkSet_ne ch d.line d'.line _ hne, ← lkHas_eq_isSome]
          exact hfresh d' (List.mem_cons_of_mem d hd')
        rw [ih _ _ hnd.2 hfresh',
          lkSet_length_of_not_has ch d.line _ (hfresh d (List.mem_cons_self d ds)),
          List.filter_cons, if_pos happ]
        simp only [List.length_cons]
        omega
      · rw [if_neg happ, ih lk ch hnd.2
          (fun d' hd' => hfresh d' (List.mem_cons_of_mem d hd')),
          List.filter_cons, if_neg happ]

/-! ### Compression invariants -/

theorem compress_issues_spec (rs : List ReplaceLineFixableIssue) :
    (∀ g ∈ compress_issues rs,
        g.first :: g.rest = rs.filter (fun i => i.line == g.line)) ∧
    ((compress_issues rs).map (·.line)).Nodup ∧
    (∀ i ∈ rs, ∃ g ∈ compress_issues rs, g.line = i.line) := by
  induction rs using List.reverseRecOn with
  | nil =>
      refine ⟨?_, ?_, ?_⟩ <;> simp [compress_issues]
  | append_singleton rs i ih =>
      obtain ⟨inv1, inv2, inv3⟩ := ih
      have hstep : compress_issues (rs ++ [i]) = addToGroups (compress_issues rs) i := by
        unfold compress_issues
        rw [List.foldl_append]
        rfl
      rw [hstep]
      unfold addToGroups
      by_cases hmem : (compress_issues rs).any (fun g => g.line == i.line) = true
      · rw [if_pos hmem]
        obtain ⟨g₀, hg₀, hg₀l⟩ := List.any_eq_true.1 hmem
        have hg₀l : g₀.line = i.line := by simpa using hg₀l
        refine ⟨?_, ?_, ?_⟩
        · intro g' hg'
          obtain ⟨g, hg, rfl⟩ := List.mem_map.1 hg'
          by_cases hl : g.line = i.line
          · rw [if_pos (by simp [hl])]
            show g.first :: (g.rest ++ [i]) =
              List.filter (fun j => j.line == g.line) (rs ++ [i])
            rw [List.filter_append, ← inv1 g hg]
            have hfi : List.filter (fun j => j.line == g.line) [i] = [i] := by
              simp [hl]
            rw [hfi]
            simp
          · rw [if_neg (by simp [hl])]
            show g.first :: g.rest =
              List.filter (fun j => j.line == g.line) (rs ++ [i])
            rw [List.filter_append, ← inv1 g hg]
            have hfi : List.filter (fun j => j.line == g.line) [i] = [] := by
              have hb : (i.line == g.line) = false := beq_false_of_ne (fun he => hl he.symm)
              simp [List.filter_cons, hb]
            rw [hfi, List.append_nil]
        · have hkeys : (((compress_issues rs).map fun g =>
              if g.line == i.line then { g with rest := g.rest ++ [i] } else g).map (·.line)) =
              (compress_issues rs).map (·.line) := by
            rw [List.map_map]
            apply List.map_congr_left
            intro g _
            by_cases hl : g.line = i.line
            · simp [hl]
            · simp [hl]
          rw [hkeys]
          exact inv2
        · intro j hj
          rcases List.mem_append.1 hj with hj | hj
          · obtain ⟨g, hg, he⟩ := inv3 j hj
            refine ⟨if g.line == i.line then { g with rest := g.rest ++ [i] } else g,
              List.mem_map_of_mem _ hg, ?_⟩
            by_cases hl : g.line = i.line
            · simpa [hl] using he
            · simpa [beq_false_of_ne hl] using he
          · rw [List.mem_singleton.1 hj]
            refine ⟨{ g₀ with rest := g₀.rest ++ [i] },
              ?_, hg₀l⟩
            have : (if g₀.line == i.line then { g₀ with rest := g₀.rest ++ [i] } else g₀) =
                { g₀ with rest := g₀.rest ++ [i] } := by simp [hg₀l]
            rw [← this]
            exact List.mem_map_of_mem _ hg₀
      · rw [if_neg hmem]
        have hnotin : ∀ g ∈ compress_issues rs, g.line ≠ i.line := by
          intro g hg he
          exact hmem (List.any_eq_true.2 ⟨g, hg, by simp [he]⟩)
        refine ⟨?_, ?_, ?_⟩
        · intro g' hg'
          rcases List.mem_append.1 hg' with hg' | hg'
          · rw [List.filter_append, ← inv1 g' hg']
            have : i.line ≠ g'.line := fun he => hnotin g' hg' he.symm
            simp [List.filter_cons, beq_false_of_ne this]
          · rw [List.mem_singleton.1 hg']
            have hrsnil : rs.filter (fun j => j.line == i.line) = [] := by
              rw [List.filter_eq_nil_iff]
              intro j hj hc
              obtain ⟨g, hg, he⟩ := inv3 j hj
              exact hnotin g hg (he.trans (by simpa using hc))
            rw [List.filter_append, hrsnil]
            simp [List.filter_cons]
        · rw [List.map_append]
          simp only [List.map_cons, List.map_nil]
          rw [List.nodup_append]
          refine ⟨inv2, List.nodup_singleton _, ?_⟩
          intro a ha
          simp only [List.mem_singleton]
          intro he
          obtain ⟨g, hg, hgl⟩ := List.mem_map.1 ha
          exact hnotin g hg (by rw [hgl, he])
        · intro j hj
          rcases List.mem_append.1 hj with hj | hj
          · obtain ⟨g, hg, he⟩ := inv3 j hj
            exact ⟨g, List.mem_append_left _ hg, he⟩
          · rw [List.mem_singleton.1 hj]
            exact ⟨⟨i.line, i, []⟩, List.mem_append_right _ (List.mem_singleton_self _), rfl⟩

theorem compress_issues_first (rs : List ReplaceLineFixableIssue) :
    ∀ g ∈ compress_issues rs, g.first ∈ rs ∧ g.first.line = g.line := by
  intro g hg
  have h1 := (compress_issues_spec rs).1 g hg
  have hmem : g.first ∈ rs.filter (fun i => i.line == g.line) := by
    rw [← h1]
    exact List.mem_cons_self _ _
  have hm := List.mem_filter.1 hmem
  exact ⟨hm.1, by simpa using hm.2⟩

theorem find?_eq_head?_of_filter {α : Type} (p : α → Bool) (l : List α) :
    l.find? p = (l.filter p).head? := by
  induction l with
  | nil => rfl
  | cons a l ih =>
      cases h : p a
      · rw [List.find?_cons, List.filter_cons, h]
        exact ih
      · rw [List.find?_cons, List.filter_cons, h]
        rfl

/-! ### Unfolding the engine pipeline -/

theorem generateV2Full_eq (resolver : Resolver) (approve : Approver) (text : String)
    (rs : List ReplaceLineFixableIssue) (ins : List InsertLineIssue)
    (ds : List DeleteLineIssue) (r₁ : ReplacePhaseResult)
    (h : processReplacements resolver approve (compress_issues rs)
      (get_line_number_lookup text) [] [] = .ok r₁) :
    generateV2Full resolver approve text rs ins ds =
      .ok ⟨emitLoop approve (processDeletions approve ds r₁.lookup r₁.changes).2
            (sortByKey (processDeletions approve ds r₁.lookup r₁.changes).1)
            (sortInsertions ins),
          (emitLoop approve (processDeletions approve ds r₁.lookup r₁.changes).2
            (sortByKey (processDeletions approve ds r₁.lookup r₁.changes).1)
            (sortInsertions ins)).map (·.2),
          (processDeletions approve ds r₁.lookup r₁.changes).2, r₁.calls⟩ := by
  unfold generateV2Full
  rw [h]

theorem generateV2Full_eq2 (resolver : Resolver) (approve : Approver) (text : String)
    (rs : List ReplaceLineFixableIssue) (ins : List InsertLineIssue)
    (ds : List DeleteLineIssue) (lk1 ch1 : List (Nat × String))
    (calls1 : List (ReplaceLineFixableIssue × String))
    (h : processReplacements resolver approve (compress_issues rs)
      (get_line_number_lookup text) [] [] = .ok ⟨lk1, ch1, calls1⟩) :
    generateV2Full resolver approve text rs ins ds =
      .ok ⟨emitLoop approve (processDeletions approve ds lk1 ch1).2
            (sortByKey (processDeletions approve ds lk1 ch1).1) (sortInsertions ins),
          (emitLoop approve (processDeletions approve ds lk1 ch1).2
            (sortByKey (processDeletions approve ds lk1 ch1).1) (sortInsertions ins)).map (·.2),
          (processDeletions approve ds lk1 ch1).2, calls1⟩ := by
  unfold generateV2Full
  rw [h]

theorem processDeletions_all_rejected (approve : Approver)
    (hrej : ∀ issue pf, approve issue pf = false) :
    ∀ (ds : List DeleteLineIssue) (lk ch : List (Nat × String)),
      processDeletions approve ds lk ch = (lk, ch) := by
  intro ds
  induction ds with
  | nil => intro lk ch; rfl
  | cons d ds ih =>
      intro lk ch
      unfold processDeletions
      rw [if_neg (by rw [hrej]; exact fun h => Bool.noConfusion h)]
      exact ih lk ch

/-! ### Collector lemmas -/

theorem collect_issues_inrange (vale_issues : List LineIssue) (is_mdx : Bool)
    (regions : List (Nat × Nat)) (lk : List (Nat × String)) :
    ∀ i ∈ collect_issues vale_issues is_mdx regions lk,
      lkGet lk i.line = some i.existing_content := by
  intro i hi
  unfold collect_issues at hi
  obtain ⟨a, _, he⟩ := List.mem_filterMap.1 hi
  split at he
  · cases he
  · split at he
    · next content heq =>
        cases he
        exact heq
    · cases he

theorem collect_issues_unprotected (vale_issues : List LineIssue)
    (regions : List (Nat × Nat)) (lk : List (Nat × String)) :
    ∀ i ∈ collect_issues vale_issues true regions lk,
      is_protected_line regions i.line = false := by
  intro i hi
  unfold collect_issues at hi
  obtain ⟨a, _, he⟩ := List.mem_filterMap.1 hi
  split at he
  · cases he
  · next hp =>
      split at he
      · cases he
        simpa using hp
      · cases he

/-! ### Counting lemmas -/

theorem countP_or_disjoint {α : Type} (p q : α → Bool) :
    ∀ l : List α, (∀ a ∈ l, ¬(p a = true ∧ q a = true)) →
      l.countP (fun a => p a || q a) = l.countP p + l.countP q := by
  intro l
  induction l with
  | nil => intro _; rfl
  | cons a l ih =>
      intro hdisj
      rw [List.countP_cons, List.countP_cons, List.countP_cons,
        ih (fun b hb => hdisj b (List.mem_cons_of_mem a hb))]
      have hd := hdisj a (List.mem_cons_self a l)
      cases hp : p a <;> cases hq : q a <;> simp [hp, hq] at hd ⊢ <;> omega

theorem countP_mem_eq_length (keys : List Nat) :
    ∀ S : List Nat, keys.Nodup → S.Nodup → (∀ k ∈ S, k ∈ keys) →
      keys.countP (fun k => decide (k ∈ S)) = S.length := by
  intro S
  induction S with
  | nil => intro _ _ _; simp
  | cons s S ih =>
      intro hknd hSnd hsub
      rw [List.nodup_cons] at hSnd
      have hsplit : keys.countP (fun k => decide (k ∈ s :: S)) =
          keys.countP (fun k => decide (k = s)) + keys.countP (fun k => decide (k ∈ S)) := by
        rw [← countP_or_disjoint (fun k => decide (k = s)) (fun k => decide (k ∈ S)) keys ?hd]
        · apply List.countP_congr
          intro k _
          simp [List.mem_cons]
        · intro k _ ⟨h1, h2⟩
          simp only [decide_eq_true_eq] at h1 h2
          exact hSnd.1 (h1 ▸ h2)
      rw [hsplit, ih hknd hSnd.2 (fun k hk => hsub k (List.mem_cons_of_mem s hk))]
      have hone : keys.countP (fun k => decide (k = s)) = 1 := by
        have hc : keys.countP (fun k => decide (k = s)) = keys.count s := by
          apply List.countP_congr
          intro k _
          simp [List.count]
        rw [hc]
        exact List.count_eq_one_of_mem hknd (hsub s (List.mem_cons_self s S))
      rw [hone]
      simp [Nat.add_comm]

theorem countP_isNone_add_isSome (ch : List (Nat × String)) (l : List (Nat × String)) :
    l.countP (fun q => (lkGet ch q.1).isNone) +
      l.countP (fun q => (lkGet ch q.1).isSome) = l.length := by
  induction l with
  | nil => rfl
  | cons p l ih =>
      rw [List.countP_cons, List.countP_cons]
      cases h : lkGet ch p.1 <;> simp [h] <;> omega

theorem mem_dropWhile_of_mem {α : Type} (p : α → Bool) :
    ∀ (l : List α) (a : α), a ∈ l → p a = false → a ∈ l.dropWhile p := by
  intro l
  induction l with
  | nil => intro a ha _; cases ha
  | cons b l ih =>
      intro a ha hpa
      rw [List.dropWhile_cons]
      by_cases hb : p b = true
      · rw [if_pos hb]
        rcases List.mem_cons.1 ha with rfl | ha1
        · rw [hpa] at hb; cases hb
        · exact ih a ha1 hpa
      · rw [if_neg hb]
        exact ha

theorem pyStrip_not_isEmpty (line : String) (c : Char) (hc : c ∈ line.data)
    (hw : c.isWhitespace = false) : (pyStrip line).data.isEmpty = false := by
  have h1 : c ∈ line.data.dropWhile Char.isWhitespace :=
    mem_dropWhile_of_mem Char.isWhitespace line.data c hc hw
  have h2 : c ∈ (line.data.dropWhile Char.isWhitespace).reverse :=
    List.mem_reverse.2 h1
  have h3 : c ∈ (line.data.dropWhile Char.isWhitespace).reverse.dropWhile Char.isWhitespace :=
    mem_dropWhile_of_mem Char.isWhitespace _ c h2 hw
  have h4 : c ∈ ((line.data.dropWhile Char.isWhitespace).reverse.dropWhile
      Char.isWhitespace).reverse := List.mem_reverse.2 h3
  cases he : (pyStrip line).data.isEmpty
  · rfl
  · exact absurd (List.isEmpty_iff.1 he) (List.ne_nil_of_mem h4)

/-! ### Claim C6 -/

/-- Claim C6: for every input text, running `generate_v2` with empty
replacement, insertion, and deletion lists returns a string equal to the
input text byte-for-byte. -/
theorem c6_zero_issues_identity (resolver : Resolver) (approve : Approver) (text : String) :
    generate_v2 resolver approve text [] [] [] = .ok text := by
  have h1 : generate_v2 resolver approve text [] [] [] =
      .ok (joinLines ((emitLoop approve [] (sortByKey (get_line_number_lookup text))
        []).map (·.2))) := rfl
  rw [h1, sortByKey_lookup, emitLoop_no_changes_no_ins, List.map_map]
  have h2 : ((fun p : Option Nat × String => p.2) ∘ fun p : Nat × String => (some p.1, p.2)) =
      Prod.snd := rfl
  rw [h2, lookup_map_snd, joinLines_splitLines]

/-! ### Claim C2 -/

/-- Claim C2 counterexample: an out-of-range replace issue that the gate
approves makes `generate_v2` raise `KeyError` (the unguarded
`initial_line_lookup[line_no]` access), rather than being ignored:
document `"hello"` (1 line), replace issue at line 99, auto-approving
gate. -/
theorem c2_counterexample :
    generate_v2 (fun _ _ => "X") (fun _ _ => true) "hello"
      [⟨99, ["m"], "hello"⟩] [] [] = .error 99 := rfl

/-- Claim C2 (amended): out-of-range lines are filtered out at
collection time — `ValeEditor.collect_issues` registers only issues
whose line exists in the snapshot lookup — so `generate_v2` on issues
produced by the collector always completes normally; the engine itself
raises `KeyError` only when an out-of-range replace issue is injected
directly and approved. -/
theorem c2_amended (resolver : Resolver) (approve : Approver) (text : String)
    (vale_issues : List LineIssue) (is_mdx : Bool) (regions : List (Nat × Nat))
    (ins : List InsertLineIssue) (ds : List DeleteLineIssue) :
    ∃ out, generate_v2 resolver approve text
      (collect_issues vale_issues is_mdx regions (get_line_number_lookup text)) ins ds
      = .ok out := by
  have hin := collect_issues_inrange vale_issues is_mdx regions (get_line_number_lookup text)
  have hhas : ∀ g ∈ compress_issues (collect_issues vale_issues is_mdx regions
      (get_line_number_lookup text)), lkHas (get_line_number_lookup text) g.line = true := by
    intro g hg
    obtain ⟨hfirst, hline⟩ := compress_issues_first _ g hg
    rw [lkHas_eq_isSome, ← hline, hin g.first hfirst]
    rfl
  obtain ⟨r₁, h₁⟩ := processReplacements_ok resolver approve _ _ [] [] hhas
  refine ⟨joinLines ((emitLoop approve (processDeletions approve ds r₁.lookup r₁.changes).2
      (sortByKey (processDeletions approve ds r₁.lookup r₁.changes).1)
      (sortInsertions ins)).map (·.2)), ?_⟩
  unfold generate_v2
  rw [generateV2Full_eq resolver approve text _ ins ds r₁ h₁]
  rfl

/-! ### Claim C5 -/

/-- Claim C5: when the resolver call inside `ReplaceLineFixableIssue.fix`
fails with any exception, `fix` returns the original `existing_content`
unchanged and propagates no error; consequently a reconciliation pass in
which every fix fails (run over issues whose `existing_content` matches
the snapshot, as the collectors guarantee) completes and leaves the text
unchanged. -/
theorem c5_resolver_failure (issue : ReplaceLineFixableIssue) (e : String)
    (approve : Approver) (text : String) (rs : List ReplaceLineFixableIssue)
    (hmatch : ∀ i ∈ rs, lkGet (get_line_number_lookup text) i.line = some i.existing_content) :
    issue.fix (.error e) = issue.existing_content ∧
    generate_v2 (fun i _ => i.fix (.error e)) approve text rs [] [] = .ok text := by
  refine ⟨rfl, ?_⟩
  have hcontent : ∀ g ∈ compress_issues rs,
      lkGet (get_line_number_lookup text) g.line = some (mkDeduped g).existing_content := by
    intro g hg
    obtain ⟨hfirst, hline⟩ := compress_issues_first rs g hg
    rw [← hline]
    exact hmatch g.first hfirst
  obtain ⟨calls2, h₁⟩ := processReplacements_noop approve (compress_issues rs)
    (get_line_number_lookup text) [] [] hcontent
  unfold generate_v2
  rw [generateV2Full_eq (fun i _ => i.fix (.error e)) approve text rs [] []
    ⟨get_line_number_lookup text, [], calls2⟩ h₁]
  show Except.ok (joinLines ((emitLoop approve []
    (sortByKey (get_line_number_lookup text)) []).map (·.2))) = .ok text
  rw [sortByKey_lookup, emitLoop_no_changes_no_ins, List.map_map]
  have h2 : ((fun p : Option Nat × String => p.2) ∘ fun p : Nat × String => (some p.1, p.2)) =
      Prod.snd := rfl
  rw [h2, lookup_map_snd, joinLines_splitLines]

/-- Witness for C5 at a concrete input. -/
theorem c5_witness :
    ReplaceLineFixableIssue.fix ⟨1, ["m"], " x"⟩ (.error "boom") = " x" ∧
    generate_v2 (fun i _ => i.fix (.error "boom")) (fun _ _ => true) "a\nb"
      [⟨1, ["m"], "a"⟩] [] [] = .ok "a\nb" :=
  c5_resolver_failure ⟨1, ["m"], " x"⟩ "boom" (fun _ _ => true) "a\nb"
    [⟨1, ["m"], "a"⟩] (by decide)

/-! ### Claim C8 -/

/-- The kind-specific record fields, from the amended claim wording:
replacement records carry messages, content before and content after;
insertion records carry content after only; deletion records carry
messages only. -/
def extra_log_fields : Issue → List String
  | .replace _ => ["issue_message", "content_before", "content_after"]
  | .insert _ => ["content_after"]
  | .delete _ => ["issue_message"]

/-- Claim C8 counterexample: a deletion decision record does not carry
the `content_before`/`content_after` fields (even though the issue has
an `existing_content`), so the field set is not the same across issue
kinds. -/
theorem c8_counterexample :
    ((log_approval_decision_entry "2024-01-01T00:00:00" "doc.md"
        (.delete ⟨2, ["m"], "b"⟩) true none).map Prod.fst) =
      ["timestamp", "file", "issue_type", "line", "approved", "issue_message"] ∧
    "content_before" ∉ ((log_approval_decision_entry "2024-01-01T00:00:00" "doc.md"
        (.delete ⟨2, ["m"], "b"⟩) true none).map Prod.fst) ∧
    "content_after" ∉ ((log_approval_decision_entry "2024-01-01T00:00:00" "doc.md"
        (.delete ⟨2, ["m"], "b"⟩) true none).map Prod.fst) := by
  refine ⟨rfl, ?_, ?_⟩ <;> decide

/-- Claim C8 (amended): `log_approval_decision` builds, for every issue
kind, one record carrying the stable common field set (timestamp, file
path, issue kind, line, approved flag) followed by kind-specific
fields: messages/content-before/content-after for replacements,
content-after for insertions, messages only for deletions; but no
record is ever appended to the decision log: for every decision and
every log state, the `config.ensure_storage_dir()` call raises
`AttributeError` (the config class defines only `ensure_storage_dirs`),
so the function fails after building the entry and before the write. -/
theorem c8_amended (timestamp file_path : String) (issue : Issue) (approved : Bool)
    (fix : Option String) (log : List (List (String × LogValue))) :
    (log_approval_decision_entry timestamp file_path issue approved fix).map Prod.fst =
      ["timestamp", "file", "issue_type", "line", "approved"] ++ extra_log_fields issue ∧
    log_approval_decision timestamp file_path issue approved fix log =
      .error "AttributeError: ensure_storage_dir" := by
  refine ⟨?_, rfl⟩
  cases issue <;> rfl

/-! ### Claim C9 -/

/-- Claim C9 counterexample: the single-line document `"}"` — a line not
inside any component containing an unmatched close brace — produces no
protected region at all, and `is_protected_line` reports line 1 as
unprotected; the detector only protects lines containing `{`. -/
theorem c9_counterexample :
    identify_protected_regions ["\x7d"] = [] ∧
    is_protected_line (identify_protected_regions ["\x7d"]) 1 = false := ⟨rfl, rfl⟩

/-- Claim C9 (amended): a line scanned outside an open component region
that is not an import/export line and does not open a component tag,
and that contains at least one opening brace `{` (whether or not the
braces are matched), is emitted as the protected singleton `[n, n]`,
and `is_protected_line` then reports it protected; a line whose only
brace is `}` is not protected. -/
theorem c9_amended (st : MDXState) (n : Nat) (line : String)
    (hopen : st.in_jsx_block = false)
    (himp : pyStartsWith (pyStrip line) "import " = false)
    (hexp : pyStartsWith (pyStrip line) "export " = false)
    (hjsx : jsxStartName line = none)
    (hbrace : pyHasChar line '\x7b' = true) :
    (mdxStep st n line).protected_regions = st.protected_regions ++ [(n, n)] ∧
    is_protected_line (mdxStep st n line).protected_regions n = true := by
  have hmem : '\x7b' ∈ line.data := by simpa [pyHasChar] using hbrace
  have hne : (pyStrip line).data.isEmpty = false :=
    pyStrip_not_isEmpty line '\x7b' hmem (by decide)
  have hcount : decide (pyCountChar line '\x7b' > 0) = true :=
    decide_eq_true (List.count_pos_iff.2 hmem)
  have hstep : mdxStep st n line =
      { st with protected_regions := st.protected_regions ++ [(n, n)] } := by
    unfold mdxStep
    rw [hjsx]
    simp only [hopen, hne, himp, hexp, hbrace, hcount, Bool.not_false, Bool.false_and,
      Bool.and_false, Bool.false_or, Bool.or_false, Bool.true_or, Bool.true_and,
      Bool.and_true, Bool.and_self, ite_true, ite_false, Bool.false_eq_true]
  refine ⟨by rw [hstep], ?_⟩
  rw [hstep]
  show is_protected_line (st.protected_regions ++ [(n, n)]) n = true
  unfold is_protected_line
  apply List.any_eq_true.2
  refine ⟨(n, n), List.mem_append_right _ (List.mem_singleton_self _), by simp⟩

/-- Witness for C9 at a concrete input: the matched-brace expression
line. -/
theorem c9_witness :
    (mdxStep ⟨false, none, none, 0, []⟩ 1 "\x7bx\x7d").protected_regions = [] ++ [(1, 1)] ∧
    is_protected_line (mdxStep ⟨false, none, none, 0, []⟩ 1 "\x7bx\x7d").protected_regions 1 =
      true :=
  c9_amended ⟨false, none, none, 0, []⟩ 1 "\x7bx\x7d" rfl (by decide) (by decide)
    (by decide) (by decide)

/-! ### Claim C1 -/

/-- Claim C1 counterexample: `generate_v2` itself performs no protection
check — a replace issue registered directly against the protected line 1
(`import x`) is applied under an all-approving policy, so reconciliation
does modify a line inside a computed protected interval. -/
theorem c1_counterexample :
    is_protected_line (identify_protected_regions (splitLines "import x\nhello")) 1 = true ∧
    generate_v2 (fun _ _ => "CHANGED") (fun _ _ => true) "import x\nhello"
      [⟨1, ["m"], "import x"⟩] [] [] = .ok "CHANGED\nhello" := ⟨rfl, rfl⟩

/-- Claim C1 (amended): protection is enforced at collection, not in the
engine: issues produced by `ValeEditor.collect_issues` in MDX mode never
target a protected line, so when the issue set comes from that
collector, `generate_v2` succeeds and every protected line of the input
appears in its output unchanged, with its original line number, in the
original relative order — under every resolver and every approval
policy. -/
theorem c1_vale_protected_frame (resolver : Resolver) (approve : Approver) (text : String)
    (vale_issues : List LineIssue) (regions : List (Nat × Nat)) :
    ∃ r, generateV2Full resolver approve text
        (collect_issues vale_issues true regions (get_line_number_lookup text)) [] [] = .ok r ∧
      ((r.emitted.filterMap taggedPair).filter (fun q => is_protected_line regions q.1))
        = ((get_line_number_lookup text).filter (fun q => is_protected_line regions q.1)) := by
  have hin := collect_issues_inrange vale_issues true regions (get_line_number_lookup text)
  have hhas : ∀ g ∈ compress_issues (collect_issues vale_issues true regions
      (get_line_number_lookup text)), lkHas (get_line_number_lookup text) g.line = true := by
    intro g hg
    obtain ⟨hfirst, hline⟩ := compress_issues_first _ g hg
    rw [lkHas_eq_isSome, ← hline, hin g.first hfirst]
    rfl
  obtain ⟨⟨lk1, ch1, calls1⟩, h₁⟩ := processReplacements_ok resolver approve _ _ [] [] hhas
  refine ⟨_, generateV2Full_eq2 resolver approve text _ [] [] lk1 ch1 calls1 h₁, ?_⟩
  show ((emitLoop approve ch1 (sortByKey lk1) (sortInsertions [])).filterMap
      taggedPair).filter (fun q => is_protected_line regions q.1) =
    (get_line_number_lookup text).filter (fun q => is_protected_line regions q.1)
  have hP : ∀ n, is_protected_line regions n = true → lkGet ch1 n = none := by
    intro n hpn
    cases hc : lkGet ch1 n with
    | none => rfl
    | some c =>
        have hsome : (lkGet ch1 n).isSome = true := by rw [hc]; rfl
        rcases processReplacements_ch_keys resolver approve _ _ _ _ ⟨lk1, ch1, calls1⟩
            h₁ n hsome with h0 | ⟨g, hg, hgl⟩
        · cases h0
        · obtain ⟨hfirst, hline⟩ := compress_issues_first _ g hg
          have hunprot := collect_issues_unprotected vale_issues regions
            (get_line_number_lookup text) g.first hfirst
          rw [hline, hgl] at hunprot
          rw [hunprot] at hpn
          cases hpn
  rw [emitLoop_filter approve ch1 _ hP (sortByKey lk1) (sortInsertions [])]
  apply sortByKey_filter_eq
  · have hk1 : lk1.map Prod.fst = (get_line_number_lookup text).map Prod.fst :=
      processReplacements_keys resolver approve _ _ _ _ ⟨lk1, ch1, calls1⟩ h₁
    rw [hk1]
    exact lookup_keys_nodup text
  · exact lookup_keys_nodup text
  · exact lookup_pairwise_keyLT text
  · intro n hpn
    exact (processReplacements_frame resolver approve _ _ _ _ ⟨lk1, ch1, calls1⟩
      h₁ n (hP n hpn)).1

/-! ### Claim C10 -/

/-- Claim C10: if the approval filter rejects every proposal, the
engine returns the input text byte-for-byte; and in general every line
not targeted by a recorded (approved) change appears in the output
unchanged, tagged with its original line number, in the original
relative order. -/
theorem c10_frame (resolver : Resolver) (approve : Approver) (text : String)
    (rs : List ReplaceLineFixableIssue) (ins : List InsertLineIssue)
    (ds : List DeleteLineIssue) (r : GenerateResult)
    (h : generateV2Full resolver approve text rs ins ds = .ok r) :
    ((∀ issue pf, approve issue pf = false) →
        r.final_lines = splitLines text ∧ joinLines r.final_lines = text) ∧
    ((r.emitted.filterMap taggedPair).filter (fun q => (lkGet r.changes q.1).isNone)
      = (get_line_number_lookup text).filter (fun q => (lkGet r.changes q.1).isNone)) := by
  rcases hrep : processReplacements resolver approve (compress_issues rs)
      (get_line_number_lookup text) [] [] with n | ⟨lk1, ch1, calls1⟩
  · unfold generateV2Full at h
    rw [hrep] at h
    cases h
  · have hfull := generateV2Full_eq2 resolver approve text rs ins ds lk1 ch1 calls1 hrep
    rw [h] at hfull
    have hr : r = _ := Except.ok.inj hfull
    subst hr
    constructor
    · intro hrej
      obtain ⟨calls2, heq2⟩ := processReplacements_all_rejected resolver approve hrej
        (compress_issues rs) (get_line_number_lookup text) [] []
      rw [hrep] at heq2
      have hinj := Except.ok.inj heq2
      rw [ReplacePhaseResult.mk.injEq] at hinj
      obtain ⟨hlk, hch, -⟩ := hinj
      subst hlk
      subst hch
      rw [processDeletions_all_rejected approve hrej ds]
      show (emitLoop approve [] (sortByKey (get_line_number_lookup text))
          (sortInsertions ins)).map (·.2) = splitLines text ∧
        joinLines ((emitLoop approve [] (sortByKey (get_line_number_lookup text))
          (sortInsertions ins)).map (·.2)) = text
      rw [sortByKey_lookup, emitLoop_all_rejected approve hrej, List.map_map]
      have h2 : ((fun p : Option Nat × String => p.2) ∘
          fun p : Nat × String => (some p.1, p.2)) = Prod.snd := rfl
      rw [h2, lookup_map_snd, joinLines_splitLines]
      exact ⟨rfl, rfl⟩
    · have hP : ∀ n, (lkGet (processDeletions approve ds lk1 ch1).2 n).isNone = true →
          lkGet (processDeletions approve ds lk1 ch1).2 n = none :=
        fun n hn => Option.isNone_iff_eq_none.1 hn
      show ((emitLoop approve (processDeletions approve ds lk1 ch1).2
          (sortByKey (processDeletions approve ds lk1 ch1).1)
          (sortInsertions ins)).filterMap taggedPair).filter
            (fun q => (lkGet (processDeletions approve ds lk1 ch1).2 q.1).isNone) =
        (get_line_number_lookup text).filter
          (fun q => (lkGet (processDeletions approve ds lk1 ch1).2 q.1).isNone)
      rw [emitLoop_filter approve _ _ hP (sortByKey (processDeletions approve ds lk1 ch1).1)
        (sortInsertions ins)]
      apply sortByKey_filter_eq
        (fun k => (lkGet (processDeletions approve ds lk1 ch1).2 k).isNone)
        (processDeletions approve ds lk1 ch1).1 (get_line_number_lookup text)
      · apply processDeletions_keys_nodup
        have hk1 : lk1.map Prod.fst = (get_line_number_lookup text).map Prod.fst :=
          processReplacements_keys resolver approve _ _ _ _ ⟨lk1, ch1, calls1⟩ hrep
        rw [hk1]
        exact lookup_keys_nodup text
      · exact lookup_keys_nodup text
      · exact lookup_pairwise_keyLT text
      · intro n hpn
        have hnone := Option.isNone_iff_eq_none.1 hpn
        obtain ⟨hd1, hd2⟩ := processDeletions_frame approve ds lk1 ch1 n hnone
        obtain ⟨hr1, -⟩ := processReplacements_frame resolver approve _ _ _ _
          ⟨lk1, ch1, calls1⟩ hrep n hd2
        rw [hd1, hr1]

/-- Witness for C10 at a concrete input. -/
theorem c10_witness :
    ((∀ issue pf, (fun _ _ => false : Approver) issue pf = false) →
        ["a"] = splitLines "a" ∧ joinLines ["a"] = "a") ∧
    ((([((some 1 : Option Nat), "a")]).filterMap taggedPair).filter
        (fun q => (lkGet [] q.1).isNone)
      = (get_line_number_lookup "a").filter (fun q => (lkGet [] q.1).isNone)) :=
  c10_frame (fun _ _ => "X") (fun _ _ => false) "a" [] [] []
    ⟨[(some 1, "a")], ["a"], [], []⟩ rfl

/-! ### Claim C4 -/

/-- Claim C4 counterexample: two approved delete issues on the same
line 2 of a 3-line document are gated and counted independently (k = 2
approved deletions), yet only one line is removed: the output has 2
lines, not `3 − 2 = 1`. -/
theorem c4_counterexample :
    generate_v2 (fun _ _ => "") (fun _ _ => true) "a\nb\nc" [] []
      [⟨2, ["m"], "b"⟩, ⟨2, ["m"], "b"⟩] = .ok "a\nc" ∧
    (splitLines "a\nc").length ≠ 3 - 2 := by
  refine ⟨rfl, by decide⟩

/-- Claim C4 (amended): for delete issues targeting distinct lines that
exist in the snapshot lookup, on a document none of whose lines equals
the delete sentinel, the output of `generate_v2` contains no sentinel
line and has exactly `originalLineCount − approvedDeletions` lines. -/
theorem c4_amended (resolver : Resolver) (approve : Approver) (text : String)
    (ds : List DeleteLineIssue)
    (hnd : (ds.map (·.line)).Nodup)
    (hin : ∀ d ∈ ds, lkHas (get_line_number_lookup text) d.line = true)
    (hsent : ∀ l ∈ splitLines text, l ≠ DELETE_LINE_MESSAGE) :
    ∃ r, generateV2Full resolver approve text [] [] ds = .ok r ∧
      r.final_lines.length = (splitLines text).length -
        (ds.filter (fun d => approve (.delete d) "TO DELETE")).length ∧
      ∀ l ∈ r.final_lines, l ≠ DELETE_LINE_MESSAGE := by
  have hfull := generateV2Full_eq2 resolver approve text [] [] ds
    (get_line_number_lookup text) [] [] rfl
  refine ⟨_, hfull, ?_, ?_⟩
  all_goals
    have hsent0 : ∀ n c, lkGet ([] : List (Nat × String)) n = some c →
        c = DELETE_LINE_MESSAGE := fun n c hc => Option.noConfusion hc
    have hchsent := processDeletions_ch_sentinel approve ds
      (get_line_number_lookup text) [] hsent0
    have hemit : emitLoop approve (processDeletions approve ds
        (get_line_number_lookup text) []).2
        (sortByKey (processDeletions approve ds (get_line_number_lookup text) []).1) [] =
        (((sortByKey (processDeletions approve ds (get_line_number_lookup text) []).1)).filter
          (fun q => (lkGet (processDeletions approve ds
            (get_line_number_lookup text) []).2 q.1).isNone)).map
          (fun q => (some q.1, q.2)) :=
      emitLoop_sentinel approve _ hchsent _
    have hkeys2 : ((processDeletions approve ds (get_line_number_lookup text) []).1).map
        Prod.fst = (get_line_number_lookup text).map Prod.fst :=
      processDeletions_keys_of_has approve ds (get_line_number_lookup text) [] hin
  · -- length
    show ((emitLoop approve (processDeletions approve ds
        (get_line_number_lookup text) []).2
        (sortByKey (processDeletions approve ds (get_line_number_lookup text) []).1)
        (sortInsertions [])).map (·.2)).length = _
    rw [show sortInsertions [] = [] from rfl, hemit, List.length_map, List.length_map]
    have e2 : (((sortByKey (processDeletions approve ds
        (get_line_number_lookup text) []).1)).filter
          (fun q => (lkGet (processDeletions approve ds
            (get_line_number_lookup text) []).2 q.1).isNone)).length =
        ((processDeletions approve ds (get_line_number_lookup text) []).1).countP
          (fun q => (lkGet (processDeletions approve ds
            (get_line_number_lookup text) []).2 q.1).isNone) := by
      rw [← List.countP_eq_length_filter]
      exact (sortByKey_perm _).countP_eq _
    rw [e2]
    have e3 := countP_isNone_add_isSome
      (processDeletions approve ds (get_line_number_lookup text) []).2
      (processDeletions approve ds (get_line_number_lookup text) []).1
    have e4 : ((processDeletions approve ds (get_line_number_lookup text) []).1).countP
        (fun q => (lkGet (processDeletions approve ds
          (get_line_number_lookup text) []).2 q.1).isSome) =
        ((processDeletions approve ds (get_line_number_lookup text) []).2).length := by
      have e4a : ((processDeletions approve ds (get_line_number_lookup text) []).1).countP
          (fun q => (lkGet (processDeletions approve ds
            (get_line_number_lookup text) []).2 q.1).isSome) =
          (((processDeletions approve ds (get_line_number_lookup text) []).1).map
            Prod.fst).countP
            (fun k => (lkGet (processDeletions approve ds
              (get_line_number_lookup text) []).2 k).isSome) :=
        (List.countP_map
          (fun k => (lkGet (processDeletions approve ds
            (get_line_number_lookup text) []).2 k).isSome) Prod.fst
          ((processDeletions approve ds (get_line_number_lookup text) []).1)).symm
      rw [e4a]
      have e4b : (((processDeletions approve ds (get_line_number_lookup text) []).1).map
          Prod.fst).countP
          (fun k => (lkGet (processDeletions approve ds
            (get_line_number_lookup text) []).2 k).isSome) =
          (((processDeletions approve ds (get_line_number_lookup text) []).1).map
            Prod.fst).countP
            (fun k => decide (k ∈ ((processDeletions approve ds
              (get_line_number_lookup text) []).2).map Prod.fst)) := by
        apply List.countP_congr
        intro k _
        rw [← lkHas_eq_isSome]
        simp only [decide_eq_true_eq]
        exact lkHas_iff_mem _ k
      rw [e4b]
      have hlen := countP_mem_eq_length
        (((processDeletions approve ds (get_line_number_lookup text) []).1).map Prod.fst)
        (((processDeletions approve ds (get_line_number_lookup text) []).2).map Prod.fst)
        (by rw [hkeys2]; exact lookup_keys_nodup text)
        (processDeletions_ch_nodup approve ds (get_line_number_lookup text) []
          (by simp))
        ?_
      · rw [hlen, List.length_map]
      · intro k hk
        have hksome : (lkGet ((processDeletions approve ds
            (get_line_number_lookup text) []).2) k).isSome = true := by
          rw [← lkHas_eq_isSome]
          exact (lkHas_iff_mem _ k).2 hk
        rcases processDeletions_ch_keys approve ds (get_line_number_lookup text) [] k
            hksome with h0 | ⟨d, hd, hdl⟩
        · cases h0
        · rw [hkeys2]
          rw [← (lkHas_iff_mem (get_line_number_lookup text) k)]
          rw [← hdl]
          exact hin d hd
    have e5 : ((processDeletions approve ds (get_line_number_lookup text) []).1).length =
        (splitLines text).length := by
      have := congrArg List.length hkeys2
      rw [List.length_map, List.length_map] at this
      rw [this, lookup_length]
    have e6 : ((processDeletions approve ds (get_line_number_lookup text) []).2).length =
        (ds.filter (fun d => approve (.delete d) "TO DELETE")).length := by
      have := processDeletions_ch_length approve ds (get_line_number_lookup text) []
        hnd (fun d _ => rfl)
      simpa using this
    omega
  · -- no sentinel in the output
    show ∀ l ∈ (emitLoop approve (processDeletions approve ds
        (get_line_number_lookup text) []).2
        (sortByKey (processDeletions approve ds (get_line_number_lookup text) []).1)
        (sortInsertions [])).map (·.2), l ≠ DELETE_LINE_MESSAGE
    rw [show sortInsertions [] = [] from rfl, hemit, List.map_map]
    intro l hl
    obtain ⟨q, hq, rfl⟩ := List.mem_map.1 hl
    have hqf := List.mem_filter.1 hq
    have hq2 : q ∈ (processDeletions approve ds (get_line_number_lookup text) []).1 :=
      (sortByKey_perm _).subset hqf.1
    have hqget : lkGet ((processDeletions approve ds
        (get_line_number_lookup text) []).1) q.1 = some q.2 := by
      apply lkGet_eq_of_mem_nodup _ _ _ (by rw [hkeys2]; exact lookup_keys_nodup text)
      exact (Prod.mk.eta (p := q)) ▸ hq2
    have hnone := Option.isNone_iff_eq_none.1 hqf.2
    obtain ⟨hd1, -⟩ := processDeletions_frame approve ds (get_line_number_lookup text) []
      q.1 hnone
    rw [hd1] at hqget
    have hqmem := mem_of_lkGet_eq_some _ _ _ hqget
    have hsnd : q.2 ∈ (get_line_number_lookup text).map Prod.snd :=
      List.mem_map_of_mem Prod.snd hqmem
    rw [lookup_map_snd] at hsnd
    show ((fun p : Option Nat × String => p.2) ∘ (fun q : Nat × String => (some q.1, q.2))) q ≠
      DELETE_LINE_MESSAGE
    exact hsent q.2 hsnd

/-- Witness for C4 at a concrete input. -/
theorem c4_witness :
    ∃ r, generateV2Full (fun _ _ => "") (fun _ _ => true) "a\nb\nc" [] []
        [⟨2, ["m"], "b"⟩] = .ok r ∧
      r.final_lines.length = (splitLines "a\nb\nc").length -
        (([⟨2, ["m"], "b"⟩] : List DeleteLineIssue).filter
          (fun d => (fun _ _ => true : Approver) (.delete d) "TO DELETE")).length ∧
      ∀ l ∈ r.final_lines, l ≠ DELETE_LINE_MESSAGE :=
  c4_amended (fun _ _ => "") (fun _ _ => true) "a\nb\nc" [⟨2, ["m"], "b"⟩]
    (by decide) (by decide) (by decide)

/-! ### Claim C3 -/

/-- Claim C3 counterexample: the compressed groups are resolved in
first-registration order, not ascending line-number order — registering
issues for line 2 and then line 1 produces resolver calls in the order
[2, 1]. -/
theorem c3_counterexample :
    ∃ r, generateV2Full (fun _ _ => "X") (fun _ _ => false) "a\nb"
        [⟨2, ["m"], "b"⟩, ⟨1, ["m"], "a"⟩] [] [] = .ok r ∧
      r.calls.map (fun c => c.1.line) = [2, 1] := ⟨_, rfl, rfl⟩

/-- Claim C3 (amended): the per-line groups are resolved in
first-registration order (the key order of the compressed dict), one
resolver call per group; the call of each group receives the context window
(the 5 lines before and after, rendered and joined) drawn from the line
lookup as already mutated by the approved fixes of earlier groups — the
lookup component of the run over the preceding groups — so a group
processed later observes replacements already approved for groups
processed earlier. -/
theorem c3_contexts (resolver : Resolver) (approve : Approver)
    (rs : List ReplaceLineFixableIssue) (lk : List (Nat × String))
    (r : ReplacePhaseResult)
    (h : processReplacements resolver approve (compress_issues rs) lk [] [] = .ok r) :
    r.calls.map (·.1) = (compress_issues rs).map mkDeduped ∧
    ∀ i, i < (compress_issues rs).length →
      ∃ g ri, (compress_issues rs).get? i = some g ∧
        processReplacements resolver approve ((compress_issues rs).take i) lk [] [] =
          .ok ri ∧
        r.calls.get? i = some (mkDeduped g, buildContext g.line ri.lookup) := by
  constructor
  · have h1 := processReplacements_calls resolver approve _ _ _ _ r h
    simpa using h1
  · intro i hi
    have hdrop : (compress_issues rs).drop i =
        (compress_issues rs)[i] :: (compress_issues rs).drop (i + 1) :=
      List.drop_eq_getElem_cons hi
    rcases hpre : processReplacements resolver approve ((compress_issues rs).take i)
        lk [] [] with n | r₁
    · rw [← List.take_append_drop i (compress_issues rs),
        processReplacements_append_error resolver approve _ _ _ _ _ n hpre] at h
      cases h
    · refine ⟨(compress_issues rs)[i], r₁, ?_, rfl, ?_⟩
      · rw [List.get?_eq_getElem?]
        exact List.getElem?_eq_some.2 ⟨hi, rfl⟩
      · have h2 := h
        rw [← List.take_append_drop i (compress_issues rs),
          processReplacements_append_ok resolver approve _ _ _ _ _ r₁ hpre, hdrop] at h2
        obtain ⟨tail, htail⟩ := processReplacements_cons_calls resolver approve _ _ _ _ _ r h2
        have hlen : r₁.calls.length = i := by
          have hl := processReplacements_calls_length resolver approve _ _ _ _ r₁ hpre
          rw [List.length_take] at hl
          simpa [Nat.min_eq_left (Nat.le_of_lt hi)] using hl
        have hgoal : (r₁.calls ++ [(mkDeduped (compress_issues rs)[i],
            buildContext (compress_issues rs)[i].line r₁.lookup)]).get? i =
            some (mkDeduped (compress_issues rs)[i],
              buildContext (compress_issues rs)[i].line r₁.lookup) := by
          generalize (mkDeduped (compress_issues rs)[i],
            buildContext (compress_issues rs)[i].line r₁.lookup) = callp
          rw [← hlen]
          exact List.get?_concat_length r₁.calls callp
        rw [htail, List.get?_append
          (by rw [List.length_append, hlen, List.length_singleton]; omega)]
        exact hgoal

/-- Witness for C3 at a concrete input. -/
theorem c3_witness :
    ([((⟨1, ["m"], "a"⟩ : ReplaceLineFixableIssue), "1: a")]).map (·.1) =
      (compress_issues [⟨1, ["m"], "a"⟩]).map mkDeduped ∧
    ∀ i, i < (compress_issues [(⟨1, ["m"], "a"⟩ : ReplaceLineFixableIssue)]).length →
      ∃ g ri, (compress_issues [(⟨1, ["m"], "a"⟩ : ReplaceLineFixableIssue)]).get? i =
          some g ∧
        processReplacements (fun _ _ => "X") (fun _ _ => false)
          ((compress_issues [⟨1, ["m"], "a"⟩]).take i) (get_line_number_lookup "a") [] [] =
          .ok ri ∧
        ([((⟨1, ["m"], "a"⟩ : ReplaceLineFixableIssue), "1: a")]).get? i =
          some (mkDeduped g, buildContext g.line ri.lookup) :=
  c3_contexts (fun _ _ => "X") (fun _ _ => false) [⟨1, ["m"], "a"⟩]
    (get_line_number_lookup "a")
    ⟨get_line_number_lookup "a", [], [(⟨1, ["m"], "a"⟩, "1: a")]⟩ rfl

/-! ### Claim C7 -/

/-- The first-registered replace issue at a given line, following the
words of the spec (the existing content of the first issue is treated as
authoritative), for comparison with the merged issue of the engine. -/
def spec_first_registered_at (rs : List ReplaceLineFixableIssue) (n : Nat) :
    Option ReplaceLineFixableIssue :=
  rs.find? (fun i => i.line == n)

/-- Claim C7: replace issues sharing a line number are merged before
resolution into a single issue whose message list is the deduplicated
union of the messages of the group and whose `existing_content` is that of
the first-registered issue of the group; the resolver is called exactly
once per distinct line number (the call lines are exactly the distinct
registered lines, each once). -/
theorem c7_compression (resolver : Resolver) (approve : Approver)
    (rs : List ReplaceLineFixableIssue) (lk : List (Nat × String))
    (r : ReplacePhaseResult)
    (h : processReplacements resolver approve (compress_issues rs) lk [] [] = .ok r) :
    ((r.calls.map (fun c => c.1.line)).Nodup ∧
      ∀ i ∈ rs, i.line ∈ r.calls.map (fun c => c.1.line)) ∧
    ∀ c ∈ r.calls, c.1.issue_message.Nodup ∧
      (∀ m, m ∈ c.1.issue_message ↔ ∃ i ∈ rs, i.line = c.1.line ∧ m ∈ i.issue_message) ∧
      ∃ i₀, spec_first_registered_at rs c.1.line = some i₀ ∧
        c.1.existing_content = i₀.existing_content := by
  obtain ⟨hgroups, hnodup, hcover⟩ := compress_issues_spec rs
  have hcallmap : r.calls.map (·.1) = (compress_issues rs).map mkDeduped := by
    have h1 := processReplacements_calls resolver approve _ _ _ _ r h
    simpa using h1
  have hlinemap : r.calls.map (fun c => c.1.line) =
      (compress_issues rs).map (·.line) := by
    have h2 : r.calls.map (fun c => c.1.line) =
        (r.calls.map (·.1)).map (·.line) := by rw [List.map_map]; rfl
    rw [h2, hcallmap, List.map_map]
    apply List.map_congr_left
    intro g hg
    exact (compress_issues_first rs g hg).2
  constructor
  · constructor
    · rw [hlinemap]
      exact hnodup
    · intro i hi
      obtain ⟨g, hg, hgl⟩ := hcover i hi
      rw [hlinemap]
      exact hgl ▸ List.mem_map_of_mem (·.line) hg
  · intro c hc
    have hc1 : c.1 ∈ r.calls.map (·.1) := List.mem_map_of_mem (·.1) hc
    rw [hcallmap] at hc1
    obtain ⟨g, hg, hgc⟩ := List.mem_map.1 hc1
    have hfl := (compress_issues_first rs g hg).2
    have hml : (mkDeduped g).line = g.line := hfl
    have hline : c.1.line = g.line := by rw [← hgc]; exact hml
    refine ⟨?_, ?_, ?_⟩
    · rw [← hgc]
      exact List.nodup_dedup _
    · intro m
      rw [← hgc, hml]
      show m ∈ (((g.first :: g.rest).map (·.issue_message)).flatten).dedup ↔
        ∃ i ∈ rs, i.line = g.line ∧ m ∈ i.issue_message
      rw [List.mem_dedup, List.mem_flatten]
      constructor
      · rintro ⟨msgs, hmsgs, hm⟩
        obtain ⟨j, hj, hjm⟩ := List.mem_map.1 hmsgs
        rw [hgroups g hg] at hj
        have hjf := List.mem_filter.1 hj
        exact ⟨j, hjf.1, by simpa using hjf.2, hjm ▸ hm⟩
      · rintro ⟨j, hj, hjl, hm⟩
        refine ⟨j.issue_message,
          List.mem_map_of_mem (fun x : ReplaceLineFixableIssue => x.issue_message) ?_, hm⟩
        rw [hgroups g hg, List.mem_filter]
        exact ⟨hj, by simp [hjl]⟩
    · refine ⟨g.first, ?_, ?_⟩
      · unfold spec_first_registered_at
        rw [hline, find?_eq_head?_of_filter, ← hgroups g hg]
        rfl
      · rw [← hgc]
        rfl

/-- Witness for C7 at a concrete input (two issues on line 3 with
different messages). -/
theorem c7_witness :
    ((([((⟨3, ["A", "B"], "x"⟩ : ReplaceLineFixableIssue), "")]).map
        (fun c => c.1.line)).Nodup ∧
      ∀ i ∈ [(⟨3, ["A"], "x"⟩ : ReplaceLineFixableIssue), ⟨3, ["B"], "x"⟩],
        i.line ∈ ([((⟨3, ["A", "B"], "x"⟩ : ReplaceLineFixableIssue), "")]).map
          (fun c => c.1.line)) ∧
    ∀ c ∈ [((⟨3, ["A", "B"], "x"⟩ : ReplaceLineFixableIssue), "")],
      c.1.issue_message.Nodup ∧
      (∀ m, m ∈ c.1.issue_message ↔
        ∃ i ∈ [(⟨3, ["A"], "x"⟩ : ReplaceLineFixableIssue), ⟨3, ["B"], "x"⟩],
          i.line = c.1.line ∧ m ∈ i.issue_message) ∧
      ∃ i₀, spec_first_registered_at
          [(⟨3, ["A"], "x"⟩ : ReplaceLineFixableIssue), ⟨3, ["B"], "x"⟩] c.1.line =
          some i₀ ∧
        c.1.existing_content = i₀.existing_content :=
  c7_compression (fun _ _ => "X") (fun _ _ => false)
    [⟨3, ["A"], "x"⟩, ⟨3, ["B"], "x"⟩] []
    ⟨[], [], [(⟨3, ["A", "B"], "x"⟩, "")]⟩ rfl

end Hyperlint
